import Mathlib

/-!
Verification development for the CoreConvert data-conversion core
(`src/utils/dataUtils.ts`).  The TypeScript source is shallowly embedded:
strings are lists of characters, JavaScript numbers are modelled as exact
decimals extended with the two infinities (float64 rounding is not modelled;
all inputs exercised here are small decimal literals on which the two agree),
and host primitives used by the source (`Number`, `String`, `trim`, `split`,
the two regex scans, `JSON.parse`/`JSON.stringify`, `DOMParser`) are given
explicit executable models that follow the JavaScript semantics on the
relevant fragment.  All recursion is structural so closed terms evaluate
inside the kernel.
-/

namespace CC

/-- Characters of the embedded source text. -/
abbrev Str := List Char

/-- Double quote character. -/
def dq : Char := '"'

/-- Single quote character. -/
def sq : Char := Char.ofNat 39

/-- Backtick character. -/
def bt : Char := Char.ofNat 96

/-- Line feed. -/
def nlc : Char := Char.ofNat 10

/-- Carriage return. -/
def crc : Char := Char.ofNat 13

/-- JavaScript whitespace, ASCII fragment: space, tab, LF, VT, FF, CR.
(The Unicode space classes accepted by JS `\s` and `trim` are not modelled;
no input in this development contains them.) -/
def isJsSpace (c : Char) : Bool :=
  c = ' ' || c = Char.ofNat 9 || c = nlc || c = Char.ofNat 11 ||
  c = Char.ofNat 12 || c = crc

/-- Model of `String.prototype.trim`. -/
def trimJs (s : Str) : Str :=
  ((s.dropWhile isJsSpace).reverse.dropWhile isJsSpace).reverse

/-- Model of `String.prototype.split` with a one-character separator. -/
def splitOnChar (d : Char) : Str → List Str
  | [] => [[]]
  | c :: t =>
    match splitOnChar d t with
    | [] => []
    | h :: r => if c = d then [] :: h :: r else (c :: h) :: r

/-- Prepend a character to the first field of a split result. -/
def consHead (c : Char) : List Str → List Str
  | [] => [[c]]
  | h :: r => (c :: h) :: r

/-- Model of `String.prototype.split(/\r?\n/)`: LF or CRLF separate lines;
a lone CR is ordinary content. -/
def splitLines : Str → List Str
  | [] => [[]]
  | c :: t =>
    if c = nlc then [] :: splitLines t
    else if c = crc then
      match t with
      | d :: t2 =>
        if d = nlc then [] :: splitLines t2 else consHead c (splitLines (d :: t2))
      | [] => [[c]]
    else consHead c (splitLines t)

/-- Join, placing the separator between consecutive pieces
(model of `Array.prototype.join`). -/
def joinSep (sep : Str) : List Str → Str
  | [] => []
  | [x] => x
  | x :: y :: t => x ++ sep ++ joinSep sep (y :: t)

/-- Value of a string of decimal digits. -/
def natOfDigits (ds : Str) : Nat :=
  ds.foldl (fun a c => a * 10 + (c.toNat - 48)) 0

/-- Digit test for a radix up to 16. -/
def isRadixDigit (b : Nat) (c : Char) : Bool :=
  let v :=
    if c.isDigit then c.toNat - 48
    else if 'a' ≤ c.toLower && c.toLower ≤ 'f' then c.toLower.toNat - 87
    else 99
  v < b

/-- Value of a string of digits in the given radix. -/
def natOfRadix (b : Nat) (ds : Str) : Nat :=
  ds.foldl (fun a c =>
    a * b + (if c.isDigit then c.toNat - 48 else c.toLower.toNat - 87)) 0

/-- A canonical exact decimal `m * 10^e`: `10 ∤ m` unless `m = 0` (then
`e = 0`), so value equality is structural equality. -/
structure Dec where
  m : Int
  e : Int
deriving DecidableEq, Repr

/-- Strip factors of ten from the mantissa (fueled; fuel `m.natAbs` always
suffices). -/
def stripTens : Nat → Int → Int → Dec
  | 0, m, e => ⟨m, e⟩
  | f + 1, m, e => if m % 10 = 0 ∧ m ≠ 0 then stripTens f (m / 10) (e + 1) else ⟨m, e⟩

/-- Canonical decimal from mantissa and exponent. -/
def mkDec (m e : Int) : Dec :=
  if m = 0 then ⟨0, 0⟩ else stripTens m.natAbs m e

/-- Negation of a canonical decimal (canonicity is preserved). -/
def negDec (d : Dec) : Dec := ⟨-d.m, d.e⟩

/-- A JavaScript number that is not NaN: a finite value (kept exact as a
decimal; float64 rounding is not modelled, and every literal this
development evaluates is exactly representable in the decimal model) or one
of the two infinities. -/
inductive JsNum where
  | fin (d : Dec)
  | inf
  | negInf
deriving DecidableEq, Repr

/-- Finite JS number from an integer. -/
def finInt (i : Int) : JsNum := .fin (mkDec i 0)

/-- Exponent part of a decimal literal, after the `e`/`E`. -/
def parseExp (s : Str) : Option Int :=
  match s with
  | [] => none
  | c :: t =>
    let p : Int × Str := if c = '+' then (1, t) else if c = '-' then (-1, t) else (1, s)
    let ds := p.2.takeWhile Char.isDigit
    if ds ≠ [] ∧ p.2.drop ds.length = [] then some (p.1 * natOfDigits ds) else none

/-- Unsigned decimal literal of JS `Number`: `digits [. digits] [e[±]digits]`
or `. digits …`, requiring at least one digit overall; the value is
`digits(ip ++ fp) * 10^(exp - |fp|)`. -/
def parseDecLit (s : Str) : Option Dec :=
  let ip := s.takeWhile Char.isDigit
  let r1 := s.drop ip.length
  let fr : Str × Str :=
    match r1 with
    | '.' :: t => (t.takeWhile Char.isDigit, t.drop (t.takeWhile Char.isDigit).length)
    | _ => ([], r1)
  let fp := fr.1
  if ip = [] ∧ fp = [] then none
  else
    let digits : Int := natOfDigits (ip ++ fp)
    match fr.2 with
    | [] => some (mkDec digits (-(fp.length : Int)))
    | c :: t =>
      if c = 'e' ∨ c = 'E' then
        (parseExp t).map (fun ex => mkDec digits (ex - fp.length))
      else none

/-- Radix-prefixed literal body (`0x…`, `0o…`, `0b…`): no sign allowed. -/
def parseRadix (b : Nat) (s : Str) : Option JsNum :=
  if s ≠ [] ∧ s.all (isRadixDigit b) then some (finInt (natOfRadix b s)) else none

/-- Signed decimal literal or `Infinity`. -/
def decSigned (t : Str) : Option JsNum :=
  let p : Bool × Str :=
    match t with
    | '+' :: r => (false, r)
    | '-' :: r => (true, r)
    | _ => (false, t)
  if p.2 = "Infinity".toList then some (if p.1 then .negInf else .inf)
  else (parseDecLit p.2).map (fun d => .fin (if p.1 then negDec d else d))

/-- Model of JS `Number(string)`: `none` is NaN.  The empty (or all-blank)
string converts to `0`; `0x`/`0o`/`0b` literals take no sign. -/
def jsToNumber (s : Str) : Option JsNum :=
  let t := trimJs s
  match t with
  | [] => some (finInt 0)
  | '0' :: c :: r =>
    if c = 'x' ∨ c = 'X' then parseRadix 16 r
    else if c = 'o' ∨ c = 'O' then parseRadix 8 r
    else if c = 'b' ∨ c = 'B' then parseRadix 2 r
    else decSigned t
  | _ => decSigned t

/-- Decimal digits of a natural number. -/
def natToDec (n : Nat) : Str := Nat.toDigits 10 n

/-- Decimal rendering of an integer. -/
def intToDec (i : Int) : Str :=
  if i < 0 then '-' :: natToDec i.natAbs else natToDec i.natAbs

/-- Left-pad a digit string with zeros to the given width. -/
def padZeros (k : Nat) (ds : Str) : Str :=
  List.replicate (k - ds.length) '0' ++ ds

/-- Rendering of a canonical decimal: integers bare, fractions with a
decimal point (canonicity guarantees no trailing fraction zeros). -/
def decToStr (d : Dec) : Str :=
  if 0 ≤ d.e then intToDec (d.m * (10 : Int) ^ d.e.toNat)
  else
    let k := (-d.e).toNat
    let s := padZeros (k + 1) (natToDec d.m.natAbs)
    (if d.m < 0 then ['-'] else []) ++ s.take (s.length - k) ++
      '.' :: s.drop (s.length - k)

/-- Model of JS number-to-string (exact for integers and finite decimals;
the exponent notation JS switches to beyond 1e21 is not modelled). -/
def jsNumToString : JsNum → Str
  | .fin d => decToStr d
  | .inf => "Infinity".toList
  | .negInf => "-Infinity".toList

/-- The canonical value model: the dynamic JS values flowing between the
parsers and serializers of `dataUtils.ts`. -/
inductive Value where
  | vnull
  | vbool (b : Bool)
  | num (n : JsNum)
  | str (s : Str)
  | list (xs : List Value)
  | record (fs : List (Str × Value))
deriving Repr

mutual

/-- Model of JS `String(x)` on the value model (`undefined` never occurs). -/
def jsString : Value → Str
  | .vnull => "null".toList
  | .vbool true => "true".toList
  | .vbool false => "false".toList
  | .num n => jsNumToString n
  | .str s => s
  | .list xs => jsStringItems xs
  | .record _ => "[object Object]".toList

/-- Model of `Array.prototype.join(",")`: a null element renders empty. -/
def jsStringItems : List Value → Str
  | [] => []
  | [.vnull] => []
  | [x] => jsString x
  | .vnull :: y :: t => ',' :: jsStringItems (y :: t)
  | x :: y :: t => jsString x ++ ',' :: jsStringItems (y :: t)

end


/-- Model of `Object.keys` on the values the serializers feed it.
(`Object.keys(null)` throws in JS; no claim exercises it, modelled as `[]`.) -/
def jsObjectKeys : Value → List Str
  | .record fs => fs.map Prod.fst
  | .str s => (List.range s.length).map natToDec
  | .list xs => (List.range xs.length).map natToDec
  | _ => []

/-- Property read `obj[k]`: `none` models `undefined`. -/
def jsGet (v : Value) (k : Str) : Option Value :=
  match v with
  | .record fs => (fs.find? (fun p => p.1 == k)).map Prod.snd
  | _ => none

/-- Property write `obj[k] = v` on an object: a repeated key overwrites the
earlier value but keeps its first-seen position. -/
def jsSet (fs : List (Str × Value)) (k : Str) (v : Value) : List (Str × Value) :=
  if fs.any (fun p => p.1 == k) then
    fs.map (fun p => if p.1 == k then (p.1, v) else p)
  else fs ++ [(k, v)]

/-- First-seen-order deduplication (model of `Array.from(new Set(…))`). -/
def dedupFirst (ks : List Str) : List Str :=
  ks.foldl (fun acc k => if k ∈ acc then acc else acc ++ [k]) []

/-! ## CSV / TSV codec (`parseCSV`, `toCSV`) -/

/-- Model of `.replace(/^"|"$/g, "")`: one leading and one trailing double
quote are removed, each if present (on a single `"` only the leading match
fires). -/
def stripEdgeDq (s : Str) : Str :=
  let s1 := match s with
    | c :: t => if c = dq then t else s
    | [] => []
  match s1.getLast? with
  | some c => if c = dq then s1.dropLast else s1
  | none => s1

/-- Model of `.replace(/""/g, Char.quote)`: leftmost scan collapsing doubled
double quotes. -/
def replDoubleDq : Str → Str
  | c1 :: c2 :: t =>
    if c1 = dq ∧ c2 = dq then dq :: replDoubleDq t
    else c1 :: replDoubleDq (c2 :: t)
  | s => s

/-- The lookahead `(?=\s*,|\s*$)` of the field regex. -/
def lookaheadOk (s : Str) : Bool :=
  match s.dropWhile isJsSpace with
  | [] => true
  | c :: _ => c = ','

/-- Lazy scan of `.*?"(?=\s*,|\s*$)` after an opening quote: stop at the
first quote whose lookahead holds; `.` does not cross line terminators. -/
def quotedTail : Str → Option (Str × Str)
  | [] => none
  | c :: t =>
    if c = dq ∧ lookaheadOk t then some ([], t)
    else if c = nlc ∨ c = crc then none
    else
      match quotedTail t with
      | some p => some (c :: p.1, p.2)
      | none => none

/-- One attempt of `(".*?"|[^",\s]+)(?=\s*,|\s*$)` anchored at the current
position, returning the matched text and the remaining input. -/
def tryMatchAt (s : Str) : Option (Str × Str) :=
  match s with
  | [] => none
  | c :: _ =>
    if c = dq then
      match quotedTail s.tail with
      | some p => some (dq :: p.1 ++ [dq], p.2)
      | none => none
    else
      let w := s.takeWhile (fun x => ¬(x = dq ∨ x = ',' ∨ isJsSpace x))
      if w ≠ [] ∧ lookaheadOk (s.drop w.length) then some (w, s.drop w.length)
      else none

/-- Fueled global scan of the field regex (`String.prototype.match` with the
`g` flag): leftmost matches, resuming after each match. -/
def csvFieldMatchesF : Nat → Str → List Str
  | 0, _ => []
  | _ + 1, [] => []
  | f + 1, c :: t =>
    match tryMatchAt (c :: t) with
    | some p => p.1 :: csvFieldMatchesF f p.2
    | none => csvFieldMatchesF f t

/-- All matches of the quoted-field regex on one line (`[]` models the `null`
result of `match`). -/
def csvFieldMatches (s : Str) : List Str := csvFieldMatchesF s.length s

/-- Model of `parseCSV(text, delimiter)` from `dataUtils.ts`: first line of
the trimmed text is the header; for the comma delimiter each data line is
tokenized by the quote-aware regex, falling back to a naive split when the
regex result is null or its field count differs from the header count. -/
def parseCSV (text : Str) (delim : Char) : List (List (Str × Value)) :=
  let lines := splitLines (trimJs text)
  if lines.length = 0 then []
  else
    let headers := (splitOnChar delim (lines.headD [])).map
      (fun h => stripEdgeDq (trimJs h))
    (lines.drop 1).map (fun line =>
      let simple := splitOnChar delim line
      let row :=
        if delim = ',' then
          let ms := csvFieldMatches line
          let row0 := if ms = [] then simple
            else ms.map (fun m => replDoubleDq (stripEdgeDq m))
          if row0.length ≠ headers.length then simple else row0
        else simple
      headers.enum.foldl
        (fun fs p => jsSet fs p.2 (Value.str (((row.get? p.1).map trimJs).getD [])))
        [])

/-- Wrap a non-array argument in a one-element array
(`Array.isArray(data) ? data : [data]`). -/
def jsToArray (v : Value) : List Value :=
  match v with
  | .list xs => xs
  | w => [w]

/-- Model of `.replace(/"/g, doubled)`. -/
def escDq : Str → Str
  | [] => []
  | c :: t => if c = dq then dq :: dq :: escDq t else c :: escDq t

/-- One serialized CSV cell: `row[field] ?? ""`, stringified, quotes doubled,
wrapped in double quotes. -/
def csvCell (row : Value) (h : Str) : Str :=
  let v := match jsGet row h with
    | some .vnull | none => Value.str []
    | some w => w
  dq :: escDq (jsString v) ++ [dq]

/-- Model of `toCSV(data, delimiter)` from `dataUtils.ts`. -/
def toCSV (data : Value) (delim : Char) : Str :=
  let arr := jsToArray data
  if arr.length = 0 then []
  else
    let headers := dedupFirst (arr.flatMap jsObjectKeys)
    joinSep [nlc]
      (joinSep [delim] headers ::
        arr.map (fun row => joinSep [delim] (headers.map (csvCell row))))

/-! ## SQL dump codec (`parseSQL`, `parseSQLValuesString`, `cleanSQLVal`, `toSQL`) -/

/-- Model of `String.prototype.substring`, swapping the bounds when
`start > end` as JS does. -/
def jsSubstring (s : Str) (a b : Nat) : Str :=
  (s.take (max a b)).drop (min a b)

/-- Model of `cleanSQLVal` from `dataUtils.ts`: trim, then `NULL`
(case-insensitive), then number (`!isNaN(Number(v)) && v !== ""`), then a
value wrapped in matching single/double/backtick quotes, else the raw
trimmed string. -/
def cleanSQLVal (val : Str) : Value :=
  let v := trimJs val
  if v.map Char.toUpper = "NULL".toList then .vnull
  else if (jsToNumber v).isSome ∧ v ≠ [] then .num ((jsToNumber v).getD (finInt 0))
  else if (v.headD ' ' = sq ∧ v.getLastD ' ' = sq) ∨
          (v.headD ' ' = dq ∧ v.getLastD ' ' = dq) ∨
          (v.headD ' ' = bt ∧ v.getLastD ' ' = bt) then
    .str (jsSubstring v 1 (v.length - 1))
  else .str v

/-- Character scan of `parseSQLValuesString`: quote state (a doubled quote of
the current kind is an escaped literal), parenthesis depth (an `Int`, since
the JS counter can go negative on stray closers), current scalar, current
row, accumulated rows.  The JS code never mutates a row after pushing it
(every depth 0→1 transition allocates a fresh row first), so the immutable
accumulator here is observationally identical. -/
def sqlValsGo (inQ : Bool) (qc : Char) (depth : Int) (cur : Str)
    (row : List Value) (rows : List (List Value)) : Str → List (List Value)
  | [] => rows
  | c :: t =>
    if inQ then
      if c = qc then
        match t with
        | c2 :: t2 =>
          if c2 = qc then sqlValsGo true qc depth (cur ++ [c]) row rows t2
          else sqlValsGo false qc depth cur row rows (c2 :: t2)
        | [] => rows
      else sqlValsGo true qc depth (cur ++ [c]) row rows t
    else
      if c = sq ∨ c = dq ∨ c = bt then
        sqlValsGo true c depth cur row rows t
      else if c = '(' then
        if depth = 0 then sqlValsGo false qc (depth + 1) [] [] rows t
        else sqlValsGo false qc (depth + 1) (cur ++ [c]) row rows t
      else if c = ')' then
        if depth - 1 = 0 then
          sqlValsGo false qc 0 [] [] (rows ++ [row ++ [cleanSQLVal cur]]) t
        else sqlValsGo false qc (depth - 1) (cur ++ [c]) row rows t
      else if c = ',' then
        if depth = 1 then sqlValsGo false qc depth [] (row ++ [cleanSQLVal cur]) rows t
        else if depth > 1 then sqlValsGo false qc depth (cur ++ [c]) row rows t
        else sqlValsGo false qc depth cur row rows t
      else
        if depth ≥ 1 then sqlValsGo false qc depth (cur ++ [c]) row rows t
        else sqlValsGo false qc depth cur row rows t

/-- Model of `parseSQLValuesString` from `dataUtils.ts`. -/
def parseSQLValuesString (s : Str) : List (List Value) :=
  sqlValsGo false ' ' 0 [] [] [] s

/-- Case-insensitive keyword match (keyword given lowercase). -/
def expectCI (kw : Str) (s : Str) : Option Str :=
  if (s.take kw.length).map Char.toLower = kw then some (s.drop kw.length) else none

/-- Model of `\s+`. -/
def expectWs1 (s : Str) : Option Str :=
  match s with
  | c :: t => if isJsSpace c then some (t.dropWhile isJsSpace) else none
  | [] => none

/-- Model of the optional quote `` [`"']? ``. -/
def optQuote (s : Str) : Str :=
  match s with
  | c :: t => if c = bt ∨ c = dq ∨ c = sq then t else s
  | [] => []

/-- Character class `[\w.]`. -/
def isWordDot (c : Char) : Bool := c.isAlphanum || c = '_' || c = '.'

/-- Model of `\s*([\s\S]+?);` (greedy blank run, then the shortest non-empty
capture ending at a semicolon, backtracking one blank into the capture when
the semicolon follows the blank run directly and no later one exists).
Returns the capture and the input after the semicolon. -/
def lazyUntilSemi (s : Str) : Option (Str × Str) :=
  let w := s.takeWhile isJsSpace
  match s.drop w.length with
  | [] => none
  | c :: t =>
    match t.findIdx? (· = ';') with
    | some i => some (c :: t.take i, t.drop (i + 1))
    | none =>
      if c = ';' ∧ w ≠ [] then some ([w.getLastD ' '], t) else none

/-- Anchored attempt of the explicit-columns insert regex
`` INSERT\s+INTO\s+[`"']?[\w.]+[`"']?\s*\(([^)]+)\)\s*VALUES\s*([\s\S]+?); ``
(case-insensitive).  Returns the column capture, the VALUES capture and the
rest of the input. -/
def matchIns1At (s : Str) : Option (Str × Str × Str) :=
  (expectCI "insert".toList s).bind fun s1 =>
  (expectWs1 s1).bind fun s2 =>
  (expectCI "into".toList s2).bind fun s3 =>
  (expectWs1 s3).bind fun s4 =>
  let s5 := optQuote s4
  let w := s5.takeWhile isWordDot
  if w = [] then none
  else
    let s7 := (optQuote (s5.drop w.length)).dropWhile isJsSpace
    match s7 with
    | '(' :: t =>
      let cols := t.takeWhile (· ≠ ')')
      if cols = [] then none
      else
        match t.drop cols.length with
        | ')' :: u =>
          (expectCI "values".toList (u.dropWhile isJsSpace)).bind fun u3 =>
          (lazyUntilSemi u3).map fun p => (cols, p.1, p.2)
        | _ => none
    | _ => none

/-- After a candidate table-name split for the no-columns shape: optional
closing quote, blanks, then `VALUES` (case-insensitive). -/
def checkTbl2After (s : Str) : Option Str :=
  expectCI "values".toList ((optQuote s).dropWhile isJsSpace)

/-- Greedy-with-backtracking split of the `[\w.]+` table-name run for the
no-columns shape: longest split first, never shrinking to the empty run.
`wrev` holds the kept part of the run, reversed. -/
def backScan2 (wrev : Str) (suffix : Str) : Option Str :=
  match checkTbl2After suffix with
  | some r => some r
  | none =>
    match wrev with
    | [] => none
    | [_] => none
    | c :: wr => backScan2 wr (c :: suffix)

/-- Anchored attempt of the no-columns insert regex
`` INSERT\s+INTO\s+[`"']?[\w.]+[`"']?\s*VALUES\s*([\s\S]+?); ``.
Returns the VALUES capture and the rest of the input. -/
def matchIns2At (s : Str) : Option (Str × Str) :=
  (expectCI "insert".toList s).bind fun s1 =>
  (expectWs1 s1).bind fun s2 =>
  (expectCI "into".toList s2).bind fun s3 =>
  (expectWs1 s3).bind fun s4 =>
  let s5 := optQuote s4
  let w := s5.takeWhile isWordDot
  if w = [] then none
  else (backScan2 w.reverse (s5.drop w.length)).bind lazyUntilSemi

/-- Fueled global scan for the explicit-columns shape (`exec` loop with the
`g` flag): leftmost matches, resuming after each semicolon. -/
def scanIns1F : Nat → Str → List (Str × Str)
  | 0, _ => []
  | _ + 1, [] => []
  | f + 1, c :: t =>
    match matchIns1At (c :: t) with
    | some r => (r.1, r.2.1) :: scanIns1F f r.2.2
    | none => scanIns1F f t

/-- All explicit-columns insert matches of the input. -/
def scanIns1 (s : Str) : List (Str × Str) := scanIns1F s.length s

/-- Fueled global scan for the no-columns shape. -/
def scanIns2F : Nat → Str → List Str
  | 0, _ => []
  | _ + 1, [] => []
  | f + 1, c :: t =>
    match matchIns2At (c :: t) with
    | some r => r.1 :: scanIns2F f r.2
    | none => scanIns2F f t

/-- All no-columns insert matches of the input. -/
def scanIns2 (s : Str) : List Str := scanIns2F s.length s

/-- Model of `.replace(/^['"`]|['"`]$/g, "")` on a column name. -/
def stripEdgeQuotes (s : Str) : Str :=
  let isQ : Char → Bool := fun c => c = sq || c = dq || c = bt
  let s1 := match s with
    | c :: t => if isQ c then t else s
    | [] => []
  match s1.getLast? with
  | some c => if isQ c then s1.dropLast else s1
  | none => s1

/-- Column list of an explicit-columns match:
`match[1].split(",").map(trim + strip one surrounding quote)`. -/
def parseCols (cap : Str) : List Str :=
  (splitOnChar ',' cap).map (fun c => stripEdgeQuotes (trimJs c))

/-- The record builder of the explicit-columns SQL shape
(`cols.forEach((col, i) => obj[col] = row[i])`). -/
def sqlMkRecord (cols : List Str) (row : List Value) : List (Str × Value) :=
  (cols.zip row).foldl (fun fs p => jsSet fs p.1 p.2) []

/-- Row loop of the explicit-columns shape: a tuple whose arity differs from
the column count is skipped; a kept tuple builds one object in column order. -/
def sqlRowsToRecords (cols : List Str) (rows : List (List Value)) :
    List (List (Str × Value)) :=
  rows.foldl (fun acc row =>
    if row.length = cols.length then acc ++ [sqlMkRecord cols row] else acc) []

/-- Model of `parseSQL` from `dataUtils.ts`: if any explicit-columns
statement matches, only those are processed; otherwise the no-columns shape
synthesizes `col_1, col_2, …`. -/
def parseSQL (text : Str) : List (List (Str × Value)) :=
  let m1 := scanIns1 text
  if m1 ≠ [] then
    m1.flatMap (fun m => sqlRowsToRecords (parseCols m.1) (parseSQLValuesString m.2))
  else
    (scanIns2 text).flatMap (fun vstr =>
      (parseSQLValuesString vstr).map (fun row =>
        row.enum.foldl
          (fun fs p => jsSet fs ("col_".toList ++ natToDec (p.1 + 1)) p.2) []))

/-- Sanitizer `[^a-zA-Z0-9_] → _` used for table and column names. -/
def sanitizeSqlName (s : Str) : Str :=
  s.map (fun c => if c.isAlphanum || c = '_' then c else '_')

/-- Model of `.replace(/'/g, doubled)`. -/
def escSq : Str → Str
  | [] => []
  | c :: t => if c = sq then sq :: sq :: escSq t else c :: escSq t

/-- One rendered SQL scalar: numbers bare, null/absent as `NULL`, everything
else single-quoted with embedded quotes doubled. -/
def sqlRenderVal (ov : Option Value) : Str :=
  match ov with
  | some (.num n) => jsNumToString n
  | some .vnull | none => "NULL".toList
  | some v => sq :: escSq (jsString v) ++ [sq]

/-- Model of `toSQL(data, tableName)` from `dataUtils.ts`. -/
def toSQL (data : Value) (tableName : Str) : Str :=
  let arr := jsToArray data
  if arr.length = 0 then []
  else
    let headers := jsObjectKeys (arr.headD .vnull)
    "INSERT INTO ".toList ++ sanitizeSqlName tableName ++ " (".toList ++
      joinSep ", ".toList (headers.map sanitizeSqlName) ++ ") VALUES\n".toList ++
      joinSep ",\n".toList
        (arr.map (fun row =>
          '(' :: joinSep ", ".toList (headers.map (fun h => sqlRenderVal (jsGet row h)))
            ++ [')'])) ++ [';']

/-! ## XML codec (`toXML`, `parseXML` / `xmlToJson`) -/

/-- Global single-character replacement. -/
def replaceAllChar (c : Char) (rep : Str) : Str → Str
  | [] => []
  | x :: t => (if x = c then rep else [x]) ++ replaceAllChar c rep t

/-- Entity escaping of a scalar body: `&`, then `<`, then `>`. -/
def escapeXml (s : Str) : Str :=
  replaceAllChar '>' "&gt;".toList
    (replaceAllChar '<' "&lt;".toList (replaceAllChar '&' "&amp;".toList s))

/-- Characters kept by the tag-name sanitizer (`[a-zA-Z0-9_\-]`). -/
def isTagChar (c : Char) : Bool := c.isAlphanum || c = '_' || c = '-'

/-- Character map of the tag-name sanitizer. -/
def sanChar (c : Char) : Char := if isTagChar c then c else '_'

/-- Tag-name sanitizer: invalid characters become `_`, a leading digit gets a
`_` prefix. -/
def sanitizeXmlTag (k : Str) : Str :=
  let n := k.map sanChar
  match n with
  | c :: _ => if c.isDigit then '_' :: n else n
  | [] => []

/-- The XML declaration emitted by the serializer. -/
def xmlDecl : Str := "<?xml version=\"1.0\" encoding=\"UTF-8\"?>".toList

/-- The reserved attribute key. -/
def attrKey : Str := "@attributes".toList

/-- Trailing wrap of `toXML`: only the root name triggers the declaration
and the `<root>` envelope. -/
def wrapRoot (rn : Str) (xml : Str) : Str :=
  if rn = "root".toList then
    xmlDecl ++ nlc :: "<root>".toList ++ xml ++ "</root>".toList
  else xml

mutual

/-- Model of `toXML(data, rootName)` from `dataUtils.ts`.  Note that a list
element is serialized by `toXML(item, "item")`, which emits no `<item>`
tag of its own — the name only suppresses the root wrap. -/
def toXML : Value → Str → Str
  | .list xs, rn => wrapRoot rn (toXMLitems xs)
  | .record fs, rn => wrapRoot rn (toXMLfields fs)
  | w, rn => wrapRoot rn (escapeXml (jsString w))

/-- List branch of `toXML`. -/
def toXMLitems : List Value → Str
  | [] => []
  | x :: xs => toXML x "item".toList ++ toXMLitems xs

/-- Record branch of `toXML`: one tag per key, `@attributes` skipped. -/
def toXMLfields : List (Str × Value) → Str
  | [] => []
  | (k, w) :: fs =>
    (if k = attrKey then []
     else
       let n := sanitizeXmlTag k
       '<' :: n ++ '>' :: toXML w n ++ '<' :: '/' :: n ++ ['>']) ++ toXMLfields fs

end

/-- A DOM node as seen by `xmlToJson`: an element (nodeType 1) or a text
node (nodeType 3). -/
inductive XNode where
  | elem (name : Str) (attrs : List (Str × Str)) (children : List XNode)
  | text (s : Str)
deriving Repr

/-- Property write on a possibly collapsed object: writing on a primitive is
a no-op (the collapsed-then-extended case never occurs in the documents
exercised here). -/
def jsSetV (v : Value) (k : Str) (x : Value) : Value :=
  match v with
  | .record fs => .record (jsSet fs k x)
  | w => w

mutual

/-- Model of `xmlToJson` from `dataUtils.ts`. -/
def xmlToJson : XNode → Value
  | .text s => .str s
  | .elem _ attrs children =>
    let obj : Value :=
      if attrs.length > 0 then
        .record [(attrKey, .record (attrs.map (fun p => (p.1, Value.str p.2))))]
      else .record []
    xmlChildren obj children

/-- Child loop of `xmlToJson`: whitespace-only text skipped; first occurrence
of a tag stored directly (a lone text child collapses the object to the bare
string); repeats grouped into an array. -/
def xmlChildren : Value → List XNode → Value
  | obj, [] => obj
  | obj, child :: rest =>
    let nodeName := match child with
      | .elem n _ _ => n
      | .text _ => "#text".toList
    let skip := match child with
      | .text s => (trimJs s).isEmpty
      | _ => false
    if skip then xmlChildren obj rest
    else
      match jsGet obj nodeName with
      | none =>
        let val : Value := match child with
          | .text s => .str s
          | e => xmlToJson e
        let truthy := match val with
          | .str [] => false
          | _ => true
        let obj1 := if truthy then jsSetV obj nodeName val else obj
        let obj2 :=
          if nodeName = "#text".toList ∧ (jsObjectKeys obj1).length = 1 then val
          else obj1
        xmlChildren obj2 rest
      | some old =>
        let conv := xmlToJson child
        let obj1 := match old with
          | .list xs => jsSetV obj nodeName (.list (xs ++ [conv]))
          | w => jsSetV obj nodeName (.list [w, conv])
        xmlChildren obj1 rest

end

/-- Name characters accepted by the modelled XML parser. -/
def isNameChar (c : Char) : Bool :=
  c.isAlphanum || c = '_' || c = '-' || c = ':' || c = '.'

/-- Fueled entity decoder for text content (`&amp;`, `&lt;`, `&gt;`,
`&quot;`, `&apos;`). -/
def decodeEntitiesF : Nat → Str → Str
  | 0, s => s
  | _ + 1, [] => []
  | f + 1, c :: t =>
    if c = '&' then
      if t.take 4 = "amp;".toList then '&' :: decodeEntitiesF f (t.drop 4)
      else if t.take 3 = "lt;".toList then '<' :: decodeEntitiesF f (t.drop 3)
      else if t.take 3 = "gt;".toList then '>' :: decodeEntitiesF f (t.drop 3)
      else if t.take 5 = "quot;".toList then dq :: decodeEntitiesF f (t.drop 5)
      else if t.take 5 = "apos;".toList then sq :: decodeEntitiesF f (t.drop 5)
      else '&' :: decodeEntitiesF f t
    else c :: decodeEntitiesF f t

/-- Entity decoding of a text run. -/
def decodeEntities (s : Str) : Str := decodeEntitiesF s.length s

mutual

/-- Fueled element parse of the DOMParser model, anchored at `<`. -/
def pxElem : Nat → Str → Option (XNode × Str)
  | 0, _ => none
  | f + 1, s =>
    match s with
    | '<' :: r =>
      let name := r.takeWhile isNameChar
      if name = [] then none
      else
        match pxAttrs f (r.drop name.length) with
        | some (attrs, rest) =>
          match rest with
          | '/' :: '>' :: r2 => some (.elem name attrs [], r2)
          | '>' :: r2 =>
            match pxNodes f r2 with
            | some (children, r3) =>
              match r3 with
              | '<' :: '/' :: r4 =>
                if r4.take name.length = name then
                  match (r4.drop name.length).dropWhile isJsSpace with
                  | '>' :: r6 => some (.elem name attrs children, r6)
                  | _ => none
                else none
              | _ => none
            | none => none
          | _ => none
        | none => none
    | _ => none

/-- Fueled attribute-list parse. -/
def pxAttrs : Nat → Str → Option (List (Str × Str) × Str)
  | 0, _ => none
  | f + 1, s =>
    let s1 := s.dropWhile isJsSpace
    match s1 with
    | '>' :: _ => some ([], s1)
    | '/' :: _ => some ([], s1)
    | [] => none
    | _ =>
      let an := s1.takeWhile isNameChar
      if an = [] then none
      else
        match s1.drop an.length with
        | '=' :: q :: r =>
          if q = dq ∨ q = sq then
            let av := r.takeWhile (· ≠ q)
            match r.drop av.length with
            | _ :: r2 => (pxAttrs f r2).map (fun p => ((an, decodeEntities av) :: p.1, p.2))
            | [] => none
          else none
        | _ => none

/-- Fueled child-sequence parse: elements and text runs until `</` or end. -/
def pxNodes : Nat → Str → Option (List XNode × Str)
  | 0, _ => none
  | f + 1, s =>
    match s with
    | [] => some ([], [])
    | '<' :: '/' :: _ => some ([], s)
    | '<' :: r =>
      match pxElem f ('<' :: r) with
      | some (n, rest) => (pxNodes f rest).map (fun p => (n :: p.1, p.2))
      | none => none
    | _ =>
      let tx := s.takeWhile (· ≠ '<')
      (pxNodes f (s.drop tx.length)).map
        (fun p => (XNode.text (decodeEntities tx) :: p.1, p.2))

end

/-- Skip a processing instruction (`<?xml …?>`). -/
def dropPI : Str → Str
  | [] => []
  | '?' :: '>' :: t => t
  | _ :: t => dropPI t

/-- Model of `DOMParser.parseFromString(text, "text/xml").documentElement`
on well-formed documents; `none` stands for the browser parsererror
document. -/
def parseXmlDoc (s : Str) : Option XNode :=
  let s1 := s.dropWhile isJsSpace
  let s2 := if s1.take 2 = "<?".toList then dropPI s1 else s1
  let s3 := s2.dropWhile isJsSpace
  match pxElem s3.length s3 with
  | some (n, rest) => if rest.dropWhile isJsSpace = [] then some n else none
  | none => none

/-- Model of `parseXML` from `dataUtils.ts`: `xmlToJson` applied to the
document element. -/
def parseXML (text : Str) : Option Value :=
  (parseXmlDoc text).map xmlToJson

/-! ## JSON host primitives (`JSON.stringify`, `JSON.parse`) -/

/-- Left brace character. -/
def lbrace : Char := Char.ofNat 123

/-- Right brace character. -/
def rbrace : Char := Char.ofNat 125

/-- Lowercase hex digit. -/
def hexDigit (n : Nat) : Char :=
  if n < 10 then Char.ofNat (48 + n) else Char.ofNat (87 + n)

/-- JSON escape of one character. -/
def jsonEscChar (c : Char) : Str :=
  if c = dq then ['\\', dq]
  else if c = '\\' then ['\\', '\\']
  else if c = Char.ofNat 8 then ['\\', 'b']
  else if c = Char.ofNat 9 then ['\\', 't']
  else if c = nlc then ['\\', 'n']
  else if c = Char.ofNat 12 then ['\\', 'f']
  else if c = crc then ['\\', 'r']
  else if c.toNat < 32 then
    ['\\', 'u', '0', '0', hexDigit (c.toNat / 16), hexDigit (c.toNat % 16)]
  else [c]

/-- JSON string literal. -/
def jsonQuote (s : Str) : Str := dq :: s.flatMap jsonEscChar ++ [dq]

/-- Indentation of `n` spaces. -/
def spaces (n : Nat) : Str := List.replicate n ' '

mutual

/-- Model of `JSON.stringify(v, null, ind)` (with `ind = 0` the compact
form).  Non-finite numbers serialize as `null`. -/
def jsonStr (ind depth : Nat) : Value → Str
  | .vnull => "null".toList
  | .vbool true => "true".toList
  | .vbool false => "false".toList
  | .num (.fin q) => jsNumToString (.fin q)
  | .num _ => "null".toList
  | .str s => jsonQuote s
  | .list [] => "[]".toList
  | .list (x :: xs) =>
    let parts := jsonList ind (depth + 1) (x :: xs)
    if ind = 0 then '[' :: joinSep [','] parts ++ [']']
    else
      '[' :: nlc :: joinSep (',' :: [nlc]) (parts.map (fun p => spaces ((depth + 1) * ind) ++ p)) ++
        nlc :: spaces (depth * ind) ++ [']']
  | .record [] => [lbrace, rbrace]
  | .record (f :: fs) =>
    let parts := jsonFields ind (depth + 1) (f :: fs)
    if ind = 0 then lbrace :: joinSep [','] parts ++ [rbrace]
    else
      lbrace :: nlc :: joinSep (',' :: [nlc]) (parts.map (fun p => spaces ((depth + 1) * ind) ++ p)) ++
        nlc :: spaces (depth * ind) ++ [rbrace]

/-- Array elements of `jsonStr`. -/
def jsonList (ind depth : Nat) : List Value → List Str
  | [] => []
  | x :: xs => jsonStr ind depth x :: jsonList ind depth xs

/-- Object entries of `jsonStr` (`"key": value`, no space when compact). -/
def jsonFields (ind depth : Nat) : List (Str × Value) → List Str
  | [] => []
  | (k, v) :: fs =>
    (jsonQuote k ++ (if ind = 0 then [':'] else [':', ' ']) ++ jsonStr ind depth v) ::
      jsonFields ind depth fs

end

/-- JSON insignificant whitespace. -/
def jsonSkipWs (s : Str) : Str :=
  s.dropWhile (fun c => c = ' ' || c = Char.ofNat 9 || c = nlc || c = crc)

/-- Body of a JSON string literal, after the opening quote. -/
def jpStringGo : Str → Option (Str × Str)
  | [] => none
  | c :: t =>
    if c = dq then some ([], t)
    else if c = '\\' then
      match t with
      | 'u' :: h1 :: h2 :: h3 :: h4 :: t6 =>
        if [h1, h2, h3, h4].all (isRadixDigit 16) then
          (jpStringGo t6).map (fun p => (Char.ofNat (natOfRadix 16 [h1, h2, h3, h4]) :: p.1, p.2))
        else none
      | e :: t2 =>
        let dec : Option Char :=
          if e = dq then some dq
          else if e = '\\' then some '\\'
          else if e = '/' then some '/'
          else if e = 'b' then some (Char.ofNat 8)
          else if e = 'f' then some (Char.ofNat 12)
          else if e = 'n' then some nlc
          else if e = 'r' then some crc
          else if e = 't' then some (Char.ofNat 9)
          else none
        match dec with
        | some d => (jpStringGo t2).map (fun p => (d :: p.1, p.2))
        | none => none
      | [] => none
    else (jpStringGo t).map (fun p => (c :: p.1, p.2))

/-- JSON number grammar: `-? (0 | [1-9][0-9]*) (. [0-9]+)? ([eE][+-]?[0-9]+)?`. -/
def jpNumber (s : Str) : Option (Dec × Str) :=
  let p : Bool × Str := match s with
    | '-' :: t => (true, t)
    | _ => (false, s)
  let ip := p.2.takeWhile Char.isDigit
  let okInt := ip ≠ [] ∧ (ip.length = 1 ∨ ip.headD '0' ≠ '0')
  if ¬okInt then none
  else
    let r1 := p.2.drop ip.length
    let fr : Option (Str × Str) := match r1 with
      | '.' :: t =>
        let fp := t.takeWhile Char.isDigit
        if fp = [] then none else some (fp, t.drop fp.length)
      | _ => some ([], r1)
    match fr with
    | none => none
    | some (fp, r2) =>
      let digits : Int := natOfDigits (ip ++ fp)
      let signed := if p.1 then -digits else digits
      match r2 with
      | c :: t =>
        if c = 'e' ∨ c = 'E' then
          let q : Bool × Str := match t with
            | '+' :: u => (false, u)
            | '-' :: u => (true, u)
            | _ => (false, t)
          let ed := q.2.takeWhile Char.isDigit
          if ed = [] then none
          else some (mkDec signed
              ((if q.1 then -(natOfDigits ed : Int) else natOfDigits ed) - fp.length),
            q.2.drop ed.length)
        else some (mkDec signed (-(fp.length : Int)), r2)
      | [] => some (mkDec signed (-(fp.length : Int)), [])

mutual

/-- Fueled model of the JSON value grammar of `JSON.parse`. -/
def jpValue : Nat → Str → Except Str (Value × Str)
  | 0, _ => .error "Unexpected end of JSON input".toList
  | f + 1, s0 =>
    let s := jsonSkipWs s0
    match s with
    | [] => .error "Unexpected end of JSON input".toList
    | c :: t =>
      if c = lbrace then jpObjectBody f t
      else if c = '[' then jpArrayBody f t
      else if c = dq then
        match jpStringGo t with
        | some p => .ok (.str p.1, p.2)
        | none => .error "Unterminated string in JSON".toList
      else if c = 't' then
        if t.take 3 = "rue".toList then .ok (.vbool true, t.drop 3)
        else .error "Unexpected token".toList
      else if c = 'f' then
        if t.take 4 = "alse".toList then .ok (.vbool false, t.drop 4)
        else .error "Unexpected token".toList
      else if c = 'n' then
        if t.take 3 = "ull".toList then .ok (.vnull, t.drop 3)
        else .error "Unexpected token".toList
      else
        match jpNumber s with
        | some p => .ok (.num (.fin p.1), p.2)
        | none => .error "Unexpected token".toList

/-- Object body after the opening brace. -/
def jpObjectBody : Nat → Str → Except Str (Value × Str)
  | 0, _ => .error "Unexpected end of JSON input".toList
  | f + 1, s0 =>
    let s := jsonSkipWs s0
    match s with
    | c :: t =>
      if c = rbrace then .ok (.record [], t)
      else jpObjectItems f [] (c :: t)
    | [] => .error "Unexpected end of JSON input".toList

/-- Comma-separated object members. -/
def jpObjectItems : Nat → List (Str × Value) → Str → Except Str (Value × Str)
  | 0, _, _ => .error "Unexpected end of JSON input".toList
  | f + 1, acc, s0 =>
    let s := jsonSkipWs s0
    match s with
    | c :: t =>
      if c = dq then
        match jpStringGo t with
        | some (k, r1) =>
          match jsonSkipWs r1 with
          | ':' :: r2 =>
            match jpValue f r2 with
            | .ok (v, r3) =>
              let acc2 := jsSet acc k v
              match jsonSkipWs r3 with
              | ',' :: r4 => jpObjectItems f acc2 r4
              | c2 :: r4 =>
                if c2 = rbrace then .ok (.record acc2, r4)
                else .error "Expected comma or closing brace".toList
              | [] => .error "Unexpected end of JSON input".toList
            | .error e => .error e
          | _ => .error "Expected colon".toList
        | none => .error "Unterminated string in JSON".toList
      else .error "Expected property name".toList
    | [] => .error "Unexpected end of JSON input".toList

/-- Array body after the opening bracket. -/
def jpArrayBody : Nat → Str → Except Str (Value × Str)
  | 0, _ => .error "Unexpected end of JSON input".toList
  | f + 1, s0 =>
    let s := jsonSkipWs s0
    match s with
    | ']' :: t => .ok (.list [], t)
    | s1 => jpArrayItems f [] s1

/-- Comma-separated array elements. -/
def jpArrayItems : Nat → List Value → Str → Except Str (Value × Str)
  | 0, _, _ => .error "Unexpected end of JSON input".toList
  | f + 1, acc, s =>
    match jpValue f s with
    | .ok (v, r1) =>
      match jsonSkipWs r1 with
      | ',' :: r2 => jpArrayItems f (acc ++ [v]) r2
      | ']' :: r2 => .ok (.list (acc ++ [v]), r2)
      | _ :: _ => .error "Expected comma or closing bracket".toList
      | [] => .error "Unexpected end of JSON input".toList
    | .error e => .error e

end

/-- Model of `JSON.parse`. -/
def jsonParse (s : Str) : Except Str Value :=
  match jpValue (2 * s.length + 4) s with
  | .ok (v, rest) =>
    if jsonSkipWs rest = [] then .ok v
    else .error "Unexpected non-whitespace character after JSON data".toList
  | .error e => .error e

/-! ## Transcode orchestrator (`convertDataFile`) -/

/-- The `ConversionType` union of `types.ts`, extended with the five extra
labels the `dataUtils.ts` switch handles (`DATA_PRETTIFY`, `DATA_MINIFY`,
`DATA_TO_TSV`, `DATA_TO_SQL`, `DATA_TO_XLSX`). -/
inductive ConversionType where
  | IMAGE_TO_PNG | IMAGE_TO_JPG | IMAGE_TO_WEBP | IMAGE_TO_SVG | IMAGE_TO_ICO
  | IMAGE_TO_BMP | HEIC_TO_PNG | HEIC_TO_JPG | IMAGE_GRAYSCALE
  | SVG_TO_PNG | SVG_TO_JPG | SVG_TO_WEBP
  | DATA_TO_JSON | DATA_TO_CSV | DATA_TO_YAML | DATA_TO_XML
  | DATA_PRETTIFY | DATA_MINIFY | DATA_TO_TSV | DATA_TO_SQL | DATA_TO_XLSX
  | JSON_TO_CSV | JSON_TO_YAML | JSON_TO_XML | JSON_TO_SQL
  | CSV_TO_JSON | CSV_TO_YAML | CSV_TO_XML | CSV_TO_SQL
  | YAML_TO_JSON | YAML_TO_CSV | YAML_TO_XML
  | XML_TO_JSON | XML_TO_CSV | XML_TO_YAML
  | XLSX_TO_JSON | XLSX_TO_CSV
  | JSON_PRETTIFY | JSON_MINIFY
  | MARKDOWN_TO_HTML | TEXT_UPPERCASE | TEXT_LOWERCASE
  | TEXT_TO_SNAKE_CASE | TEXT_TO_CAMEL_CASE | HTML_MINIFY | CSS_MINIFY
  | AUDIO_TO_WAV | AUDIO_TO_MP3
  | VIDEO_TO_MP3 | VIDEO_TO_WEBM | VIDEO_TO_MP4 | VIDEO_TO_MOV
  | VIDEO_TO_MKV | VIDEO_TO_AVI | VIDEO_SNAPSHOT
  | PDF_TO_PNG | IMAGE_TO_PDF | TEXT_TO_PDF | MARKDOWN_TO_PDF
  | BASE64_ENCODE | FILE_TO_ZIP | PASSTHROUGH
  | AI_TEXT_TRANSFORM | AI_IMAGE_TO_TEXT | AI_TEXT_TO_AUDIO
  | AI_AUDIO_TO_TEXT | AI_VIDEO_TO_TEXT
deriving DecidableEq, Repr

/-- An input file: name plus its (text or byte-buffer) content. -/
structure JsFile where
  name : Str
  content : Str
deriving Repr

/-- The external collaborators of the core (YAML and spreadsheet codecs);
they are parameters of the embedding, never reimplemented. -/
structure ExternalCodecs where
  yamlLoad : Str → Except Str Value
  yamlDump : Value → Str
  xlsxDecode : Str → Except Str Value
  xlsxEncode : Value → Str

/-- Errors of `convertDataFile`: a wrapped parse failure or the
unsupported-conversion rejection of the serializer switch. -/
inductive ConvError where
  | parseFailed (msg : Str)
  | unsupported (t : ConversionType)
deriving DecidableEq, Repr

/-- An orchestrator result: serialized content, MIME type, output name
(the `Blob`/object-URL wrapping is browser plumbing and is elided). -/
structure ConvResult where
  content : Str
  mime : Str
  name : Str
deriving DecidableEq, Repr

/-- Suffix test (`String.prototype.endsWith`). -/
def endsWith (suf s : Str) : Bool := suf.isSuffixOf s

/-- One anchored attempt of `INSERT\s+INTO` / `CREATE\s+TABLE`. -/
def sniffKwAt (kw1 kw2 : Str) (s : Str) : Bool :=
  (((expectCI kw1 s).bind expectWs1).bind (expectCI kw2)).isSome

/-- Fueled content search for the SQL sniff regexes (`/INSERT\s+INTO/i`,
`/CREATE\s+TABLE/i`, match anywhere). -/
def sniffSQLF : Nat → Str → Bool
  | 0, _ => false
  | _ + 1, [] => false
  | f + 1, c :: t =>
    sniffKwAt "insert".toList "into".toList (c :: t) ||
    sniffKwAt "create".toList "table".toList (c :: t) || sniffSQLF f t

/-- Content sniff for SQL. -/
def sniffSQL (s : Str) : Bool := sniffSQLF s.length s

/-- A parsed record list as a `Value`. -/
def recsToValue (rs : List (List (Str × Value))) : Value :=
  .list (rs.map .record)

/-- The browser error document produced by `DOMParser` on malformed XML
(`xmlToJson` then walks it instead of throwing). -/
def parserErrorValue : Value :=
  .record [("parsererror".toList, .str "XML parse error".toList)]

/-- XML parse as the orchestrator sees it: never a thrown error. -/
def parseXMLOrError (text : Str) : Value :=
  match parseXML text with
  | some v => v
  | none => parserErrorValue

/-- Step 1 of `convertDataFile`: extension dispatch with content-sniffing
fallback.  Binary spreadsheet input goes to the external codec. -/
def parseInput (ext : ExternalCodecs) (f : JsFile) : Except Str Value :=
  if endsWith ".xlsx".toList f.name || endsWith ".xls".toList f.name then
    ext.xlsxDecode f.content
  else if endsWith ".json".toList f.name then jsonParse f.content
  else if endsWith ".csv".toList f.name then .ok (recsToValue (parseCSV f.content ','))
  else if endsWith ".yaml".toList f.name || endsWith ".yml".toList f.name then
    ext.yamlLoad f.content
  else if endsWith ".xml".toList f.name then .ok (parseXMLOrError f.content)
  else if endsWith ".tsv".toList f.name then
    .ok (recsToValue (parseCSV f.content (Char.ofNat 9)))
  else if endsWith ".sql".toList f.name then .ok (recsToValue (parseSQL f.content))
  else
    let t := trimJs f.content
    if t.headD ' ' = lbrace ∨ t.headD ' ' = '[' then jsonParse f.content
    else if t.headD ' ' = '<' then .ok (parseXMLOrError f.content)
    else if sniffSQL t then .ok (recsToValue (parseSQL f.content))
    else .ok (recsToValue (parseCSV f.content ','))

/-- The repo-side part of `toXLSX`: wrap a non-array value, then hand the
record list to the external spreadsheet codec. -/
def toXLSX (ext : ExternalCodecs) (data : Value) : Str :=
  ext.xlsxEncode (.list (jsToArray data))

/-- Output filename: source extension replaced by the target extension. -/
def outName (srcName : Str) (ext : Str) : Str :=
  joinSep ['.'] ((splitOnChar '.' srcName).dropLast) ++ '.' :: ext

/-- Table name for `DATA_TO_SQL`: `file.name.split(".")[0] || "table_name"`. -/
def sqlTableName (srcName : Str) : Str :=
  let p := (splitOnChar '.' srcName).headD []
  if p = [] then "table_name".toList else p

/-- Step 2 of `convertDataFile`: the serializer switch. -/
def serializeData (ext : ExternalCodecs) (f : JsFile) (data : Value)
    (t : ConversionType) : Except ConvError ConvResult :=
  match t with
  | .DATA_TO_CSV =>
    .ok ⟨toCSV data ',', "text/csv".toList, outName f.name "csv".toList⟩
  | .DATA_TO_JSON =>
    .ok ⟨jsonStr 2 0 data, "application/json".toList, outName f.name "json".toList⟩
  | .DATA_PRETTIFY =>
    .ok ⟨jsonStr 2 0 data, "application/json".toList, outName f.name "json".toList⟩
  | .DATA_MINIFY =>
    .ok ⟨jsonStr 0 0 data, "application/json".toList, outName f.name "json".toList⟩
  | .DATA_TO_YAML =>
    .ok ⟨ext.yamlDump data, "text/yaml".toList, outName f.name "yaml".toList⟩
  | .DATA_TO_XML =>
    .ok ⟨toXML data "root".toList, "application/xml".toList, outName f.name "xml".toList⟩
  | .DATA_TO_TSV =>
    .ok ⟨toCSV data (Char.ofNat 9), "text/tab-separated-values".toList,
      outName f.name "tsv".toList⟩
  | .DATA_TO_SQL =>
    .ok ⟨toSQL data (sqlTableName f.name), "application/sql".toList,
      outName f.name "sql".toList⟩
  | .DATA_TO_XLSX =>
    .ok ⟨toXLSX ext data,
      "application/vnd.openxmlformats-officedocument.spreadsheetml.sheet".toList,
      outName f.name "xlsx".toList⟩
  | other => .error (.unsupported other)

/-- Model of `convertDataFile(file, type)` from `dataUtils.ts`: parse the
input (wrapping any parse failure), then run the serializer switch, whose
default branch raises the unsupported-conversion error. -/
def convertDataFile (ext : ExternalCodecs) (f : JsFile) (t : ConversionType) :
    Except ConvError ConvResult :=
  match parseInput ext f with
  | .error e => .error (.parseFailed ("Failed to parse input file: ".toList ++ e))
  | .ok data => serializeData ext f data t

/-! ## Statement-level definitions and example inputs -/

/-- Decidable equality for `Except` results. -/
instance {ε α : Type} [DecidableEq ε] [DecidableEq α] : DecidableEq (Except ε α)
  | .ok a, .ok b => if h : a = b then isTrue (by rw [h]) else isFalse (by simp [h])
  | .ok _, .error _ => isFalse (by simp)
  | .error _, .ok _ => isFalse (by simp)
  | .error a, .error b =>
    if h : a = b then isTrue (by rw [h]) else isFalse (by simp [h])

/-- The data-conversion tokens the serializer switch recognizes; every other
token reaches the default branch. -/
def isDataConversion : ConversionType → Bool
  | .DATA_TO_CSV | .DATA_TO_JSON | .DATA_PRETTIFY | .DATA_MINIFY
  | .DATA_TO_YAML | .DATA_TO_XML | .DATA_TO_TSV | .DATA_TO_SQL
  | .DATA_TO_XLSX => true
  | _ => false

/-- Trivial instantiations of the external YAML/spreadsheet codecs, used by
concrete inputs that never reach them. -/
def trivCodecs : ExternalCodecs :=
  ⟨fun _ => .ok .vnull, fun _ => [], fun _ => .ok (.list []), fun _ => []⟩

/-- Prefix test on character lists. -/
def isPre : Str → Str → Bool
  | [], _ => true
  | _ :: _, [] => false
  | p :: ps, c :: cs => p = c && isPre ps cs

/-- Number of occurrences of a (non-empty) pattern in a string, counted at
every start position. -/
def countSub (pat : Str) : Str → Nat
  | [] => 0
  | c :: t => (if isPre pat (c :: t) then 1 else 0) + countSub pat t

mutual

/-- No record key anywhere in the value is literally `root`. -/
def noRootKeyV : Value → Bool
  | .list xs => noRootKeyL xs
  | .record fs => noRootKeyF fs
  | _ => true

/-- List form of `noRootKeyV`. -/
def noRootKeyL : List Value → Bool
  | [] => true
  | x :: t => noRootKeyV x && noRootKeyL t

/-- Field form of `noRootKeyV`. -/
def noRootKeyF : List (Str × Value) → Bool
  | [] => true
  | (k, v) :: t => !(k == "root".toList) && noRootKeyV v && noRootKeyF t

end

/-- Shape of the XML serializer output below the root wrap: a concatenation
of open tags and close tags whose names use the sanitizer alphabet and are
never `root`, and of text runs containing no `<`. -/
inductive Fragged : Str → Prop where
  | nil : Fragged []
  | tx : ∀ (s rest : Str), '<' ∉ s → Fragged rest → Fragged (s ++ rest)
  | tag : ∀ (n rest : Str), (∀ c ∈ n, isTagChar c = true) → n ≠ "root".toList →
      Fragged rest → Fragged ('<' :: n ++ '>' :: rest)
  | ctag : ∀ (n rest : Str), (∀ c ∈ n, isTagChar c = true) → n ≠ "root".toList →
      Fragged rest → Fragged ('<' :: '/' :: n ++ '>' :: rest)

/-- Scalar values of the data model. -/
def isScalar : Value → Bool
  | .list _ => false
  | .record _ => false
  | _ => true

/-- String form a value takes in a serialized CSV cell
(`String(row[key] ?? "")`). -/
def csvStringForm (v : Value) : Str :=
  match v with
  | .vnull => []
  | w => jsString w

/-- Key restriction of the amended CSV round trip: non-empty, no blanks, no
double quote, no delimiter. -/
def plainKey (k : Str) : Bool :=
  !k.isEmpty && k.all (fun c => !isJsSpace c && c ≠ dq && c ≠ ',')

/-- Cell-string restriction of the amended CSV round trip: no double quote,
no line break, and invariant under trimming. -/
def plainCellStr (s : Str) : Bool :=
  s.all (fun c => c ≠ dq && c ≠ nlc && c ≠ crc) && trimJs s == s

/-- Characters the amended CSV quoting claim allows around the escapes:
not blank, not a double quote, not the delimiter. -/
def plainChar (c : Char) : Bool :=
  !isJsSpace c && c ≠ dq && c ≠ ','

/-- The two-element record list of the XML round-trip claim. -/
def sampleListAB : Value :=
  .list [.record [("a".toList, .str "1".toList)],
         .record [("a".toList, .str "2".toList)]]

/-- The record-by-record XML round-trip result the code actually produces. -/
def c2Expected : Value :=
  .record [("a".toList, .list [.str "1".toList, .str "2".toList])]

/-- A dump containing one statement of each INSERT shape. -/
def sqlBothShapes : Str :=
  "INSERT INTO a (x) VALUES (1); INSERT INTO b VALUES (2);".toList

/-- An explicit-columns statement with one arity-mismatched tuple. -/
def sqlMixedArity : Str :=
  "INSERT INTO t (a,b) VALUES (1,2),(9),(3,4);".toList

/-- The VALUES tuple `(` `'123'` `)`. -/
def quotedNum123 : Str := '(' :: sq :: '1' :: '2' :: '3' :: [sq, ')']

/-- A JSON file holding a single unclosed brace. -/
def badJsonFile : JsFile := ⟨"a.json".toList, [lbrace]⟩

/-- A well-formed one-column CSV file. -/
def goodCsvFile : JsFile := ⟨"a.csv".toList, "a\n1".toList⟩

/-! ## Decidable equality on values -/

mutual

/-- Decidable equality on values, built directly so the instance below is a
plain definition. -/
def decEqV : (a b : Value) → Decidable (a = b)
  | .vnull, .vnull => isTrue rfl
  | .vnull, .vbool _ => isFalse (by simp)
  | .vnull, .num _ => isFalse (by simp)
  | .vnull, .str _ => isFalse (by simp)
  | .vnull, .list _ => isFalse (by simp)
  | .vnull, .record _ => isFalse (by simp)
  | .vbool _, .vnull => isFalse (by simp)
  | .vbool a, .vbool b =>
    if h : a = b then isTrue (by rw [h]) else isFalse (by simp [h])
  | .vbool _, .num _ => isFalse (by simp)
  | .vbool _, .str _ => isFalse (by simp)
  | .vbool _, .list _ => isFalse (by simp)
  | .vbool _, .record _ => isFalse (by simp)
  | .num _, .vnull => isFalse (by simp)
  | .num _, .vbool _ => isFalse (by simp)
  | .num a, .num b =>
    if h : a = b then isTrue (by rw [h]) else isFalse (by simp [h])
  | .num _, .str _ => isFalse (by simp)
  | .num _, .list _ => isFalse (by simp)
  | .num _, .record _ => isFalse (by simp)
  | .str _, .vnull => isFalse (by simp)
  | .str _, .vbool _ => isFalse (by simp)
  | .str _, .num _ => isFalse (by simp)
  | .str a, .str b =>
    if h : a = b then isTrue (by rw [h]) else isFalse (by simp [h])
  | .str _, .list _ => isFalse (by simp)
  | .str _, .record _ => isFalse (by simp)
  | .list _, .vnull => isFalse (by simp)
  | .list _, .vbool _ => isFalse (by simp)
  | .list _, .num _ => isFalse (by simp)
  | .list _, .str _ => isFalse (by simp)
  | .list xs, .list ys =>
    match decEqVL xs ys with
    | isTrue h => isTrue (by rw [h])
    | isFalse h => isFalse (by simpa using h)
  | .list _, .record _ => isFalse (by simp)
  | .record _, .vnull => isFalse (by simp)
  | .record _, .vbool _ => isFalse (by simp)
  | .record _, .num _ => isFalse (by simp)
  | .record _, .str _ => isFalse (by simp)
  | .record _, .list _ => isFalse (by simp)
  | .record fs, .record gs =>
    match decEqVF fs gs with
    | isTrue h => isTrue (by rw [h])
    | isFalse h => isFalse (by simpa using h)

/-- Decidable equality on value lists. -/
def decEqVL : (a b : List Value) → Decidable (a = b)
  | [], [] => isTrue rfl
  | [], _ :: _ => isFalse (by simp)
  | _ :: _, [] => isFalse (by simp)
  | x :: s, y :: t =>
    match decEqV x y, decEqVL s t with
    | isTrue h1, isTrue h2 => isTrue (by rw [h1, h2])
    | isFalse h1, _ => isFalse (by simp [h1])
    | _, isFalse h2 => isFalse (by simp [h2])

/-- Decidable equality on field lists. -/
def decEqVF : (a b : List (Str × Value)) → Decidable (a = b)
  | [], [] => isTrue rfl
  | [], _ :: _ => isFalse (by simp)
  | _ :: _, [] => isFalse (by simp)
  | (k, x) :: s, (l, y) :: t =>
    if hk : k = l then
      match decEqV x y, decEqVF s t with
      | isTrue h1, isTrue h2 => isTrue (by rw [hk, h1, h2])
      | isFalse h1, _ => isFalse (by simp [h1])
      | _, isFalse h2 => isFalse (by simp [h2])
    else isFalse (by simp [hk])

end

instance : DecidableEq Value := decEqV

/-- `Value` is inhabited (by `Null`). -/
instance : Inhabited Value := ⟨Value.vnull⟩

/-! ## Helper lemmas -/

/-- The row loop of the explicit-columns shape, as filter-then-map. -/
theorem sqlRowsToRecords_filter_map (cols : List Str) :
    ∀ (rows : List (List Value)) (acc : List (List (Str × Value))),
      rows.foldl (fun acc row =>
          if row.length = cols.length then acc ++ [sqlMkRecord cols row] else acc) acc =
        acc ++ ((rows.filter (fun r => r.length == cols.length)).map (sqlMkRecord cols))
  | [], acc => by simp
  | row :: rows, acc => by
    by_cases h : row.length = cols.length
    · simp [List.foldl_cons, h, sqlRowsToRecords_filter_map cols rows]
    · simp [List.foldl_cons, h, sqlRowsToRecords_filter_map cols rows]

/-- Closing parenthesis is not a single quote. -/
theorem rparen_ne_sq : ¬((')' : Char) = sq) := by decide

/-- Closing parenthesis is not a double quote. -/
theorem rparen_ne_dq : ¬((')' : Char) = dq) := by decide

/-- Closing parenthesis is not a backtick. -/
theorem rparen_ne_bt : ¬((')' : Char) = bt) := by decide

/-- Inside a single-quoted SQL scalar, every character up to the closing
quote is accumulated verbatim, and the closing quote followed by `)` ends
the tuple with the cleaned scalar. -/
theorem sqlValsGo_quoted : ∀ (c : Str), sq ∉ c →
    ∀ (cur : Str) (row : List Value) (rows : List (List Value)),
      sqlValsGo true sq 1 cur row rows (c ++ [sq, ')']) =
        rows ++ [row ++ [cleanSQLVal (cur ++ c)]]
  | [], _, cur, row, rows => by
    simp [sqlValsGo, rparen_ne_sq, rparen_ne_dq, rparen_ne_bt]
  | ch :: c, h, cur, row, rows => by
    have hch : ch ≠ sq := by
      intro he; exact h (he ▸ List.mem_cons_self ch c)
    have ih := sqlValsGo_quoted c (fun hm => h (List.mem_cons_of_mem ch hm)) (cur ++ [ch]) row rows
    cases c with
    | nil =>
      show sqlValsGo true sq 1 cur row rows (ch :: [sq, ')']) = _
      rw [show sqlValsGo true sq 1 cur row rows (ch :: [sq, ')']) =
          sqlValsGo true sq 1 (cur ++ [ch]) row rows [sq, ')'] by
        simp [sqlValsGo, hch]]
      simpa using ih
    | cons ch2 c2 =>
      show sqlValsGo true sq 1 cur row rows (ch :: ch2 :: (c2 ++ [sq, ')'])) = _
      rw [show sqlValsGo true sq 1 cur row rows (ch :: ch2 :: (c2 ++ [sq, ')'])) =
          sqlValsGo true sq 1 (cur ++ [ch]) row rows (ch2 :: (c2 ++ [sq, ')'])) by
        simp [sqlValsGo, hch]]
      simpa using ih

theorem isPre_append_self : ∀ (p r : Str), isPre p (p ++ r) = true
  | [], _ => rfl
  | c :: p, r => by simp [isPre, isPre_append_self p r]

theorem isPre_head_ne {p0 c : Char} (p t : Str) (h : p0 ≠ c) :
    isPre (p0 :: p) (c :: t) = false := by
  simp [isPre, h]

theorem fragged_append : ∀ {a b : Str}, Fragged a → Fragged b → Fragged (a ++ b) := by
  intro a b ha hb
  induction ha with
  | nil => simpa using hb
  | tx s rest hs _ ih =>
    rw [List.append_assoc]
    exact Fragged.tx s _ hs ih
  | tag n rest hn hr _ ih =>
    have := Fragged.tag n (rest ++ b) hn hr ih
    simpa [List.append_assoc] using this
  | ctag n rest hn hr _ ih =>
    have := Fragged.ctag n (rest ++ b) hn hr ih
    simpa [List.append_assoc] using this

theorem mem_replaceAllChar {x : Char} (c : Char) (rep : Str) :
    ∀ s, x ∈ replaceAllChar c rep s → x ∈ rep ∨ (x ∈ s ∧ x ≠ c)
  | [], h => by simp [replaceAllChar] at h
  | y :: t, h => by
    simp only [replaceAllChar, List.mem_append] at h
    rcases h with h | h
    · by_cases hyc : y = c
      · rw [if_pos hyc] at h
        exact .inl h
      · rw [if_neg hyc] at h
        obtain rfl := List.mem_singleton.mp h
        exact .inr ⟨List.mem_cons_self _ _, hyc⟩
    · rcases mem_replaceAllChar c rep t h with h2 | ⟨h2, h3⟩
      · exact .inl h2
      · exact .inr ⟨List.mem_cons_of_mem y h2, h3⟩

theorem no_lt_escapeXml (s : Str) : '<' ∉ escapeXml s := by
  intro h
  unfold escapeXml at h
  rcases mem_replaceAllChar '>' "&gt;".toList _ h with h1 | ⟨h1, _⟩
  · simp at h1
  rcases mem_replaceAllChar '<' "&lt;".toList _ h1 with h2 | ⟨_, h3⟩
  · simp at h2
  · exact h3 rfl

theorem countSub_skip {p0 : Char} (p : Str) (hp : p0 = '<') :
    ∀ (s rest : Str), '<' ∉ s → countSub (p0 :: p) (s ++ rest) = countSub (p0 :: p) rest
  | [], rest, _ => by simp
  | c :: s, rest, h => by
    have hc : c ≠ '<' := fun he => h (he ▸ List.mem_cons_self c s)
    have hne : p0 ≠ c := fun he => hc (by rw [← he, hp])
    rw [List.cons_append]
    show (if isPre (p0 :: p) (c :: (s ++ rest)) then 1 else 0) + countSub (p0 :: p) (s ++ rest) = _
    rw [isPre_head_ne p _ hne, countSub_skip p hp s rest (fun hm => h (List.mem_cons_of_mem c hm))]
    simp



theorem ne_of_tagchar {c x : Char} (h : isTagChar c = true) (hx : isTagChar x = false) :
    c ≠ x := by
  intro he
  rw [he, hx] at h
  cases h

theorem sanChar_tagchar (c : Char) : isTagChar (sanChar c) = true := by
  unfold sanChar
  by_cases h : isTagChar c = true
  · simp [h]
  · simp [Bool.not_eq_true] at h
    simp [h]
    decide

theorem sanitize_all_tagchar (k : Str) : ∀ c ∈ sanitizeXmlTag k, isTagChar c = true := by
  intro c hc
  unfold sanitizeXmlTag at hc
  rcases hk : k.map sanChar with _ | ⟨c0, n⟩ <;> rw [hk] at hc
  · simp at hc
  · have hc2 : c ∈ (if c0.isDigit = true then '_' :: c0 :: n else c0 :: n) := hc
    have hmem : ∀ x ∈ c0 :: n, isTagChar x = true := by
      rw [← hk]
      intro x hx
      obtain ⟨y, _, rfl⟩ := List.mem_map.mp hx
      exact sanChar_tagchar y
    by_cases hd : c0.isDigit
    · rw [if_pos hd] at hc2
      rcases List.mem_cons.mp hc2 with rfl | hc3
      · decide
      · exact hmem c hc3
    · rw [if_neg hd] at hc2
      exact hmem c hc2

theorem map_sanChar_eq :
    ∀ (target : Str), '_' ∉ target → ∀ k : Str, k.map sanChar = target → k = target := by
  intro target
  induction target with
  | nil =>
    intro _ k h
    simpa using h
  | cons a t ih =>
    intro ht k h
    cases k with
    | nil => simp at h
    | cons b k2 =>
      simp only [List.map_cons, List.cons.injEq] at h
      obtain ⟨h1, h2⟩ := h
      have hb : b = a := by
        unfold sanChar at h1
        by_cases hbt : isTagChar b = true
        · rwa [if_pos hbt] at h1
        · rw [if_neg hbt] at h1
          exact absurd (h1 ▸ List.mem_cons_self a t) ht
      rw [hb, ih (fun hm => ht (List.mem_cons_of_mem a hm)) k2 h2]

theorem sanitize_ne_root {k : Str} (h : k ≠ "root".toList) :
    sanitizeXmlTag k ≠ "root".toList := by
  intro he
  unfold sanitizeXmlTag at he
  rcases hk : k.map sanChar with _ | ⟨c0, n⟩ <;> rw [hk] at he
  · simp at he
  · have he2 : (if c0.isDigit = true then '_' :: c0 :: n else c0 :: n) = "root".toList := he
    by_cases hd : c0.isDigit
    · rw [if_pos hd] at he2
      have h3 := congrArg (fun l => l.headD ' ') he2
      simp at h3
    · rw [if_neg hd] at he2
      exact h (map_sanChar_eq _ (by decide) k (hk.trans he2))

theorem isPre_gt_name :
    ∀ (p n : Str) (rest : Str), (∀ c ∈ n, isTagChar c = true) →
      (∀ c ∈ p, isTagChar c = true) →
      isPre (p ++ ['>']) (n ++ '>' :: rest) = true → n = p := by
  intro p
  induction p with
  | nil =>
    intro n rest hn _ hpre
    cases n with
    | nil => rfl
    | cons c n2 =>
      have hc := hn c (List.mem_cons_self c n2)
      have : ('>' : Char) ≠ c := fun he =>
        ne_of_tagchar hc (by decide) he.symm
      rw [List.nil_append, List.cons_append, isPre_head_ne _ _ this] at hpre
      cases hpre
  | cons a p2 ih =>
    intro n rest hn hp hpre
    have ha := hp a (List.mem_cons_self a p2)
    cases n with
    | nil =>
      have : a ≠ '>' := ne_of_tagchar ha (by decide)
      rw [List.nil_append, List.cons_append, isPre_head_ne _ _ this] at hpre
      cases hpre
    | cons c n2 =>
      rw [List.cons_append, List.cons_append] at hpre
      simp only [isPre, Bool.and_eq_true, decide_eq_true_eq] at hpre
      obtain ⟨rfl, h2⟩ := hpre
      rw [ih n2 rest (fun x hx => hn x (List.mem_cons_of_mem _ hx))
        (fun x hx => hp x (List.mem_cons_of_mem _ hx)) h2]

theorem notPre_decl_tag (n rest : Str) (hn : ∀ c ∈ n, isTagChar c = true) :
    isPre xmlDecl ('<' :: n ++ '>' :: rest) = false := by
  have htl : xmlDecl = '<' :: '?' :: "xml version=\"1.0\" encoding=\"UTF-8\"?>".toList := by
    decide
  rw [htl]
  cases n with
  | nil => simp [isPre]
  | cons c n2 =>
    have hc : ('?' : Char) ≠ c :=
      fun he => ne_of_tagchar (hn c (List.mem_cons_self c n2)) (by decide) he.symm
    simp [isPre, hc]

theorem notPre_decl_ctag (n rest : Str) :
    isPre xmlDecl ('<' :: '/' :: n ++ '>' :: rest) = false := by
  have htl : xmlDecl = '<' :: '?' :: "xml version=\"1.0\" encoding=\"UTF-8\"?>".toList := by
    decide
  rw [htl]
  simp [isPre]

theorem notPre_openroot_tag (n rest : Str) (hn : ∀ c ∈ n, isTagChar c = true)
    (hr : n ≠ "root".toList) :
    isPre "<root>".toList ('<' :: n ++ '>' :: rest) = false := by
  have htl : "<root>".toList = '<' :: ("root".toList ++ ['>']) := by decide
  rw [htl]
  cases hb : isPre ('<' :: ("root".toList ++ ['>'])) ('<' :: n ++ '>' :: rest) with
  | false => rfl
  | true =>
    rw [List.cons_append] at hb
    simp only [isPre, Bool.and_eq_true, decide_eq_true_eq] at hb
    exact absurd (isPre_gt_name "root".toList n rest hn (by decide) hb.2) hr

theorem notPre_openroot_ctag (n rest : Str) :
    isPre "<root>".toList ('<' :: '/' :: n ++ '>' :: rest) = false := by
  have htl : "<root>".toList = '<' :: 'r' :: "oot>".toList := by decide
  rw [htl]
  simp [isPre]

theorem notPre_closeroot_tag (n rest : Str) (hn : ∀ c ∈ n, isTagChar c = true) :
    isPre "</root>".toList ('<' :: n ++ '>' :: rest) = false := by
  have htl : "</root>".toList = '<' :: '/' :: "root>".toList := by decide
  rw [htl]
  cases n with
  | nil => simp [isPre]
  | cons c n2 =>
    have hc : ('/' : Char) ≠ c :=
      fun he => ne_of_tagchar (hn c (List.mem_cons_self c n2)) (by decide) he.symm
    simp [isPre, hc]

theorem notPre_closeroot_ctag (n rest : Str) (hn : ∀ c ∈ n, isTagChar c = true)
    (hr : n ≠ "root".toList) :
    isPre "</root>".toList ('<' :: '/' :: n ++ '>' :: rest) = false := by
  have htl : "</root>".toList = '<' :: '/' :: ("root".toList ++ ['>']) := by decide
  rw [htl]
  cases hb : isPre ('<' :: '/' :: ("root".toList ++ ['>'])) ('<' :: '/' :: n ++ '>' :: rest) with
  | false => rfl
  | true =>
    simp only [isPre, Bool.and_eq_true, decide_eq_true_eq] at hb
    exact absurd (isPre_gt_name "root".toList n rest hn (by decide) hb.2.2) hr

theorem no_lt_of_tagchars {n : Str} (hn : ∀ c ∈ n, isTagChar c = true) :
    '<' ∉ n ++ ['>'] := by
  intro hm
  rcases List.mem_append.mp hm with h | h
  · exact ne_of_tagchar (hn _ h) (by decide) rfl
  · simp at h

theorem countSub_fragged (p : Str)
    (hTag : ∀ n rest, (∀ c ∈ n, isTagChar c = true) → n ≠ "root".toList →
        isPre ('<' :: p) ('<' :: n ++ '>' :: rest) = false)
    (hCtag : ∀ n rest, (∀ c ∈ n, isTagChar c = true) → n ≠ "root".toList →
        isPre ('<' :: p) ('<' :: '/' :: n ++ '>' :: rest) = false) :
    ∀ {s : Str}, Fragged s → ∀ rest,
      countSub ('<' :: p) (s ++ rest) = countSub ('<' :: p) rest := by
  intro s hs
  induction hs with
  | nil => simp
  | tx u r hu _ ih =>
    intro rest
    rw [List.append_assoc, countSub_skip p rfl u _ hu, ih rest]
  | tag n r hn hr _ ih =>
    intro rest
    have hshape : ('<' :: n ++ '>' :: r) ++ rest = '<' :: (n ++ '>' :: (r ++ rest)) := by
      simp
    rw [hshape]
    show (if isPre ('<' :: p) ('<' :: (n ++ '>' :: (r ++ rest))) then 1 else 0) +
        countSub ('<' :: p) (n ++ '>' :: (r ++ rest)) = _
    have hf := hTag n (r ++ rest) hn hr
    rw [List.cons_append] at hf
    rw [if_neg (by rw [hf]; exact Bool.false_ne_true)]
    have h2 : n ++ '>' :: (r ++ rest) = (n ++ ['>']) ++ (r ++ rest) := by simp
    rw [h2, countSub_skip p rfl _ _ (no_lt_of_tagchars hn), ih rest]
    simp
  | ctag n r hn hr _ ih =>
    intro rest
    have hshape : ('<' :: '/' :: n ++ '>' :: r) ++ rest =
        '<' :: ('/' :: n ++ '>' :: (r ++ rest)) := by simp
    rw [hshape]
    show (if isPre ('<' :: p) ('<' :: ('/' :: n ++ '>' :: (r ++ rest))) then 1 else 0) +
        countSub ('<' :: p) ('/' :: n ++ '>' :: (r ++ rest)) = _
    have hf := hCtag n (r ++ rest) hn hr
    rw [List.cons_append] at hf
    rw [if_neg (by rw [hf]; exact Bool.false_ne_true)]
    have h2 : '/' :: n ++ '>' :: (r ++ rest) = ('/' :: n ++ ['>']) ++ (r ++ rest) := by simp
    have h3 : '<' ∉ '/' :: n ++ ['>'] := by
      intro hm
      rcases List.mem_cons.mp hm with h | h
      · cases h
      · exact no_lt_of_tagchars hn h
    rw [h2, countSub_skip p rfl _ _ h3, ih rest]
    simp

theorem fragged_of_plain (s : Str) (h : '<' ∉ s) : Fragged s := by
  have := Fragged.tx s [] h Fragged.nil
  simpa using this

mutual

theorem fragged_toXML : ∀ (v : Value) (rn : Str), noRootKeyV v = true →
    rn ≠ "root".toList → Fragged (toXML v rn)
  | .vnull, rn, _, hrn => by
    rw [show toXML .vnull rn = escapeXml (jsString .vnull) by simp only [toXML]; unfold wrapRoot; rw [if_neg hrn]]
    exact fragged_of_plain _ (no_lt_escapeXml _)
  | .vbool b, rn, _, hrn => by
    rw [show toXML (.vbool b) rn = escapeXml (jsString (.vbool b)) by
      simp only [toXML]; unfold wrapRoot; rw [if_neg hrn]]
    exact fragged_of_plain _ (no_lt_escapeXml _)
  | .num n, rn, _, hrn => by
    rw [show toXML (.num n) rn = escapeXml (jsString (.num n)) by
      simp only [toXML]; unfold wrapRoot; rw [if_neg hrn]]
    exact fragged_of_plain _ (no_lt_escapeXml _)
  | .str s, rn, _, hrn => by
    rw [show toXML (.str s) rn = escapeXml (jsString (.str s)) by
      simp only [toXML]; unfold wrapRoot; rw [if_neg hrn]]
    exact fragged_of_plain _ (no_lt_escapeXml _)
  | .list xs, rn, h, hrn => by
    rw [show toXML (.list xs) rn = toXMLitems xs by simp only [toXML]; unfold wrapRoot; rw [if_neg hrn]]
    exact fragged_items xs (by simpa [noRootKeyV] using h)
  | .record fs, rn, h, hrn => by
    rw [show toXML (.record fs) rn = toXMLfields fs by simp only [toXML]; unfold wrapRoot; rw [if_neg hrn]]
    exact fragged_fields fs (by simpa [noRootKeyV] using h)

theorem fragged_items : ∀ (xs : List Value), noRootKeyL xs = true →
    Fragged (toXMLitems xs)
  | [], _ => Fragged.nil
  | x :: xs, h => by
    have h2 : noRootKeyV x = true ∧ noRootKeyL xs = true := by
      simpa [noRootKeyL, Bool.and_eq_true] using h
    rw [show toXMLitems (x :: xs) = toXML x "item".toList ++ toXMLitems xs from rfl]
    exact fragged_append (fragged_toXML x "item".toList h2.1 (by decide))
      (fragged_items xs h2.2)

theorem fragged_fields : ∀ (fs : List (Str × Value)), noRootKeyF fs = true →
    Fragged (toXMLfields fs)
  | [], _ => Fragged.nil
  | (k, w) :: fs, h => by
    have h2 : (k == "root".toList) = false ∧ noRootKeyV w = true ∧ noRootKeyF fs = true := by
      simpa [noRootKeyF, Bool.and_eq_true, and_assoc] using h
    have hk : k ≠ "root".toList := by
      intro he
      rw [he] at h2
      simp at h2
    have hrest := fragged_fields fs h2.2.2
    by_cases hattr : k = attrKey
    · rw [show toXMLfields ((k, w) :: fs) = [] ++ toXMLfields fs by
        simp [toXMLfields, hattr]]
      simpa using hrest
    · have hn := sanitize_all_tagchar k
      have hnr := sanitize_ne_root hk
      have hinner : Fragged (toXML w (sanitizeXmlTag k) ++
          ('<' :: '/' :: sanitizeXmlTag k ++ '>' :: [])) :=
        fragged_append (fragged_toXML w (sanitizeXmlTag k) h2.2.1 hnr)
          (Fragged.ctag (sanitizeXmlTag k) [] hn hnr Fragged.nil)
      have htag : Fragged ('<' :: sanitizeXmlTag k ++ '>' ::
          (toXML w (sanitizeXmlTag k) ++ ('<' :: '/' :: sanitizeXmlTag k ++ '>' :: []))) :=
        Fragged.tag (sanitizeXmlTag k) _ hn hnr hinner
      have hall := fragged_append htag hrest
      rw [show toXMLfields ((k, w) :: fs) =
          ('<' :: sanitizeXmlTag k ++ '>' :: toXML w (sanitizeXmlTag k) ++
            '<' :: '/' :: sanitizeXmlTag k ++ ['>']) ++ toXMLfields fs by
        simp [toXMLfields, hattr]]
      simpa [List.append_assoc] using hall

end

theorem countSub_cons_pos (pat : Str) (c : Char) (t : Str)
    (h : isPre pat (c :: t) = true) : countSub pat (c :: t) = 1 + countSub pat t := by
  show (if isPre pat (c :: t) = true then 1 else 0) + countSub pat t = _
  rw [if_pos h]

theorem countSub_cons_neg (pat : Str) (c : Char) (t : Str)
    (h : isPre pat (c :: t) = false) : countSub pat (c :: t) = countSub pat t := by
  show (if isPre pat (c :: t) = true then 1 else 0) + countSub pat t = _
  rw [h]
  simp

theorem toXML_root_wrap (v : Value) :
    toXML v "root".toList =
      xmlDecl ++ nlc :: "<root>".toList ++
        (match v with
          | .list xs => toXMLitems xs
          | .record fs => toXMLfields fs
          | w => escapeXml (jsString w)) ++ "</root>".toList := by
  cases v <;> simp [toXML, wrapRoot]

theorem counts_of_wrapped (body : Str) (hb : Fragged body) :
    countSub xmlDecl (xmlDecl ++ nlc :: "<root>".toList ++ body ++ "</root>".toList) = 1 ∧
    countSub "<root>".toList
      (xmlDecl ++ nlc :: "<root>".toList ++ body ++ "</root>".toList) = 1 ∧
    countSub "</root>".toList
      (xmlDecl ++ nlc :: "<root>".toList ++ body ++ "</root>".toList) = 1 := by
  obtain ⟨D, hD, hDfree⟩ : ∃ D, xmlDecl = '<' :: '?' :: D ∧ '<' ∉ D :=
    ⟨"xml version=\"1.0\" encoding=\"UTF-8\"?>".toList, by decide, by decide⟩
  have hshape : xmlDecl ++ nlc :: "<root>".toList ++ body ++ "</root>".toList =
      '<' :: '?' :: (D ++ nlc :: '<' :: 'r' :: 'o' :: 'o' :: 't' :: '>' ::
        (body ++ ['<', '/', 'r', 'o', 'o', 't', '>'])) := by
    rw [hD]
    simp
  rw [hshape]
  refine ⟨?_, ?_, ?_⟩
  · rw [hD]
    rw [countSub_cons_pos _ _ _ (by simp [isPre, isPre_append_self])]
    rw [countSub_cons_neg _ _ _ (isPre_head_ne _ _ (by decide))]
    rw [countSub_skip _ rfl D _ hDfree]
    rw [countSub_cons_neg _ _ _ (isPre_head_ne _ _ (by decide))]
    rw [countSub_cons_neg _ _ _ (by simp [isPre, show ('?' : Char) ≠ 'r' by decide])]
    rw [show ('r' :: 'o' :: 'o' :: 't' :: '>' :: (body ++ ['<', '/', 'r', 'o', 'o', 't', '>'])) =
      ['r', 'o', 'o', 't', '>'] ++ (body ++ ['<', '/', 'r', 'o', 'o', 't', '>']) from rfl]
    rw [countSub_skip _ rfl _ _ (by decide)]
    rw [countSub_fragged ('?' :: D)
      (fun n rest hn _ => by rw [← hD]; exact notPre_decl_tag n rest hn)
      (fun n rest _ _ => by rw [← hD]; exact notPre_decl_ctag n rest) hb]
    rw [countSub_cons_neg _ _ _ (by simp [isPre, show ('?' : Char) ≠ '/' by decide])]
    rw [show ('/' :: 'r' :: 'o' :: 'o' :: 't' :: '>' :: ([] : Str)) =
      ['/', 'r', 'o', 'o', 't', '>'] ++ ([] : Str) from rfl]
    rw [countSub_skip _ rfl _ _ (by decide)]
    rfl
  · rw [show "<root>".toList = '<' :: 'r' :: 'o' :: 'o' :: 't' :: '>' :: ([] : Str) from
      by decide]
    rw [countSub_cons_neg _ _ _ (by simp [isPre, show ('r' : Char) ≠ '?' by decide])]
    rw [countSub_cons_neg _ _ _ (isPre_head_ne _ _ (by decide))]
    rw [countSub_skip _ rfl D _ hDfree]
    rw [countSub_cons_neg _ _ _ (isPre_head_ne _ _ (by decide))]
    rw [countSub_cons_pos _ _ _ (by simp [isPre])]
    rw [show ('r' :: 'o' :: 'o' :: 't' :: '>' :: (body ++ ['<', '/', 'r', 'o', 'o', 't', '>'])) =
      ['r', 'o', 'o', 't', '>'] ++ (body ++ ['<', '/', 'r', 'o', 'o', 't', '>']) from rfl]
    rw [countSub_skip _ rfl _ _ (by decide)]
    rw [countSub_fragged ('r' :: 'o' :: 'o' :: 't' :: '>' :: [])
      (fun n rest hn hr => by
        rw [show ('<' :: 'r' :: 'o' :: 'o' :: 't' :: '>' :: ([] : Str)) = "<root>".toList from
          by decide]
        exact notPre_openroot_tag n rest hn hr)
      (fun n rest _ _ => by
        rw [show ('<' :: 'r' :: 'o' :: 'o' :: 't' :: '>' :: ([] : Str)) = "<root>".toList from
          by decide]
        exact notPre_openroot_ctag n rest) hb]
    rw [countSub_cons_neg _ _ _ (by simp [isPre, show ('r' : Char) ≠ '/' by decide])]
    rw [show ('/' :: 'r' :: 'o' :: 'o' :: 't' :: '>' :: ([] : Str)) =
      ['/', 'r', 'o', 'o', 't', '>'] ++ ([] : Str) from rfl]
    rw [countSub_skip _ rfl _ _ (by decide)]
    rfl
  · rw [show "</root>".toList = '<' :: '/' :: 'r' :: 'o' :: 'o' :: 't' :: '>' :: ([] : Str) from
      by decide]
    rw [countSub_cons_neg _ _ _ (by simp [isPre, show ('/' : Char) ≠ '?' by decide])]
    rw [countSub_cons_neg _ _ _ (isPre_head_ne _ _ (by decide))]
    rw [countSub_skip _ rfl D _ hDfree]
    rw [countSub_cons_neg _ _ _ (isPre_head_ne _ _ (by decide))]
    rw [countSub_cons_neg _ _ _ (by simp [isPre, show ('/' : Char) ≠ 'r' by decide])]
    rw [show ('r' :: 'o' :: 'o' :: 't' :: '>' :: (body ++ ['<', '/', 'r', 'o', 'o', 't', '>'])) =
      ['r', 'o', 'o', 't', '>'] ++ (body ++ ['<', '/', 'r', 'o', 'o', 't', '>']) from rfl]
    rw [countSub_skip _ rfl _ _ (by decide)]
    rw [countSub_fragged ('/' :: 'r' :: 'o' :: 'o' :: 't' :: '>' :: [])
      (fun n rest hn _ => by
        rw [show ('<' :: '/' :: 'r' :: 'o' :: 'o' :: 't' :: '>' :: ([] : Str)) =
          "</root>".toList from by decide]
        exact notPre_closeroot_tag n rest hn)
      (fun n rest hn hr => by
        rw [show ('<' :: '/' :: 'r' :: 'o' :: 'o' :: 't' :: '>' :: ([] : Str)) =
          "</root>".toList from by decide]
        exact notPre_closeroot_ctag n rest hn hr) hb]
    rw [countSub_cons_pos _ _ _ (by simp [isPre])]
    rw [show ('/' :: 'r' :: 'o' :: 'o' :: 't' :: '>' :: ([] : Str)) =
      ['/', 'r', 'o', 'o', 't', '>'] ++ ([] : Str) from rfl]
    rw [countSub_skip _ rfl _ _ (by decide)]
    rfl

/-! ### CSV quoting and round-trip lemmas -/

theorem plainChar_props {c : Char} (h : plainChar c = true) :
    isJsSpace c = false ∧ c ≠ dq ∧ c ≠ ',' ∧ c ≠ nlc ∧ c ≠ crc := by
  have h' : (isJsSpace c = false ∧ ¬c = dq) ∧ ¬c = ',' := by
    simpa [plainChar] using h
  refine ⟨h'.1.1, h'.1.2, h'.2, ?_, ?_⟩
  · intro hx
    rw [hx] at h'
    exact absurd h'.1.1 (by decide)
  · intro hx
    rw [hx] at h'
    exact absurd h'.1.1 (by decide)

theorem splitLines_nl (t : Str) : splitLines (nlc :: t) = [] :: splitLines t := by
  cases t with
  | nil => rfl
  | cons d t2 => simp [splitLines]

theorem splitLines_cons_plain (c : Char) (t : Str) (h1 : c ≠ nlc) (h2 : c ≠ crc) :
    splitLines (c :: t) = consHead c (splitLines t) := by
  cases t with
  | nil => simp [splitLines, consHead, h1, h2]
  | cons d t2 =>
    simp only [splitLines]
    rw [if_neg h1, if_neg h2]

theorem splitLines_no_nl : ∀ (s : Str), (∀ c ∈ s, c ≠ nlc ∧ c ≠ crc) →
    splitLines s = [s]
  | [], _ => rfl
  | c :: t, h => by
    have hc := h c (List.mem_cons_self ..)
    rw [splitLines_cons_plain c t hc.1 hc.2]
    rw [splitLines_no_nl t (fun x hx => h x (List.mem_cons_of_mem _ hx))]
    rfl

theorem splitLines_cons_nl (a rest : Str) (h : ∀ c ∈ a, c ≠ nlc ∧ c ≠ crc) :
    splitLines (a ++ nlc :: rest) = a :: splitLines rest := by
  induction a with
  | nil => rw [List.nil_append, splitLines_nl]
  | cons c t ih =>
    have hc := h c (List.mem_cons_self ..)
    rw [List.cons_append, splitLines_cons_plain c _ hc.1 hc.2]
    rw [ih (fun x hx => h x (List.mem_cons_of_mem _ hx))]
    rfl

theorem dropWhile_head_stop (p : Char → Bool) (s : Str)
    (h : ∀ c, s.head? = some c → p c = false) : s.dropWhile p = s := by
  cases s with
  | nil => rfl
  | cons c t =>
    rw [List.dropWhile_cons, h c rfl]
    simp

theorem trimJs_id_ends (s : Str)
    (hh : ∀ c, s.head? = some c → isJsSpace c = false)
    (hl : ∀ c, s.getLast? = some c → isJsSpace c = false) :
    trimJs s = s := by
  unfold trimJs
  rw [dropWhile_head_stop _ _ hh]
  rw [dropWhile_head_stop _ _ (fun c hc => hl c (by rwa [List.head?_reverse] at hc))]
  exact List.reverse_reverse s

theorem mem_of_getLastQ : ∀ (s : Str) (c : Char), s.getLast? = some c → c ∈ s
  | [], _, h => by simp at h
  | [a], c, h => by
    obtain rfl : a = c := by simpa using h
    exact List.mem_cons_self ..
  | a :: b :: t, c, h => by
    rw [List.getLast?_cons_cons] at h
    exact List.mem_cons_of_mem _ (mem_of_getLastQ (b :: t) c h)

theorem trimJs_id_all (s : Str) (h : ∀ c ∈ s, isJsSpace c = false) :
    trimJs s = s := by
  apply trimJs_id_ends
  · intro c hc
    cases s with
    | nil => simp at hc
    | cons a t =>
      obtain rfl : a = c := by simpa using hc
      exact h _ (List.mem_cons_self ..)
  · intro c hc
    exact h c (mem_of_getLastQ _ _ hc)

theorem quotedTail_cons_skip (c : Char) (t : Str)
    (h1 : c ≠ dq) (h2 : c ≠ nlc) (h3 : c ≠ crc) :
    quotedTail (c :: t) = (quotedTail t).map (fun p => (c :: p.1, p.2)) := by
  simp only [quotedTail]
  rw [if_neg (fun hx => h1 hx.1), if_neg (fun hx => hx.elim h2 h3)]
  cases quotedTail t with
  | none => rfl
  | some p => rfl

theorem quotedTail_skip : ∀ (u rest : Str),
    (∀ c ∈ u, c ≠ dq ∧ c ≠ nlc ∧ c ≠ crc) →
    quotedTail (u ++ rest) = (quotedTail rest).map (fun p => (u ++ p.1, p.2))
  | [], rest, _ => by
    rw [List.nil_append]
    cases quotedTail rest with
    | none => rfl
    | some p => simp
  | c :: u, rest, h => by
    have hc := h c (List.mem_cons_self ..)
    rw [List.cons_append, quotedTail_cons_skip c _ hc.1 hc.2.1 hc.2.2]
    rw [quotedTail_skip u rest (fun x hx => h x (List.mem_cons_of_mem _ hx))]
    cases quotedTail rest with
    | none => rfl
    | some p => simp

theorem lookaheadOk_cons_false {c : Char} (t : Str)
    (h1 : isJsSpace c = false) (h2 : c ≠ ',') : lookaheadOk (c :: t) = false := by
  unfold lookaheadOk
  rw [List.dropWhile_cons, h1]
  simp [h2]

theorem quotedTail_dq_cons (t : Str) (h : lookaheadOk t = false) :
    quotedTail (dq :: t) = (quotedTail t).map (fun p => (dq :: p.1, p.2)) := by
  simp only [quotedTail]
  rw [if_neg (fun hx => by rw [h] at hx; exact Bool.false_ne_true hx.2)]
  rw [if_neg (show ¬(dq = nlc ∨ dq = crc) by decide)]
  cases quotedTail t with
  | none => rfl
  | some p => rfl

theorem quotedTail_close (rest : Str) (h : lookaheadOk rest = true) :
    quotedTail (dq :: rest) = some ([], rest) := by
  simp [quotedTail, h]

theorem lookahead_plain_dq (v : Str) (hv : ∀ c ∈ v, plainChar c = true) :
    lookaheadOk (v ++ [dq]) = false := by
  cases v with
  | nil => exact lookaheadOk_cons_false _ (by decide) (by decide)
  | cons c v' =>
    have h := plainChar_props (hv c (List.mem_cons_self ..))
    rw [List.cons_append]
    exact lookaheadOk_cons_false _ h.1 h.2.2.1

theorem plain3 {c : Char} (h : plainChar c = true) : c ≠ dq ∧ c ≠ nlc ∧ c ≠ crc :=
  ⟨(plainChar_props h).2.1, (plainChar_props h).2.2.2.1, (plainChar_props h).2.2.2.2⟩

theorem quotedTail_c5a (u v : Str)
    (hu : ∀ c ∈ u, plainChar c = true) (hv : ∀ c ∈ v, plainChar c = true) :
    quotedTail (u ++ (dq :: dq :: (v ++ [dq]))) = some (u ++ (dq :: dq :: v), []) := by
  rw [quotedTail_skip u (dq :: dq :: (v ++ [dq])) (fun c hc => plain3 (hu c hc))]
  rw [quotedTail_dq_cons _ (lookaheadOk_cons_false _ (by decide) (by decide))]
  rw [quotedTail_dq_cons _ (lookahead_plain_dq v hv)]
  rw [quotedTail_skip v _ (fun c hc => plain3 (hv c hc))]
  rw [quotedTail_close [] (by decide)]
  simp

theorem quotedTail_c5b (u v : Str)
    (hu : ∀ c ∈ u, plainChar c = true) (hv : ∀ c ∈ v, plainChar c = true) :
    quotedTail (u ++ ',' :: v ++ [dq]) = some (u ++ ',' :: v, []) := by
  have hshape : u ++ ',' :: v ++ [dq] = (u ++ ',' :: v) ++ [dq] := by simp
  rw [hshape]
  rw [quotedTail_skip (u ++ ',' :: v) [dq] ?hall]
  · rw [quotedTail_close [] (by decide)]
    simp
  case hall =>
    intro c hc
    rcases List.mem_append.mp hc with h1 | h2
    · exact plain3 (hu c h1)
    · rcases List.mem_cons.mp h2 with rfl | h3
      · exact ⟨by decide, by decide, by decide⟩
      · exact plain3 (hv c h3)

theorem tryMatchAt_quoted (C r : Str) (h : quotedTail C = some (r, [])) :
    tryMatchAt (dq :: C) = some (dq :: r ++ [dq], []) := by
  simp [tryMatchAt, h]

theorem csvFieldMatchesF_nil : ∀ n, csvFieldMatchesF n [] = []
  | 0 => rfl
  | _ + 1 => rfl

theorem csvFieldMatchesF_step (f : Nat) (c : Char) (t m r : Str)
    (h : tryMatchAt (c :: t) = some (m, r)) :
    csvFieldMatchesF (f + 1) (c :: t) = m :: csvFieldMatchesF f r := by
  simp only [csvFieldMatchesF, h]

theorem stripEdgeDq_wrap (m : Str) : stripEdgeDq (dq :: (m ++ [dq])) = m := by
  simp [stripEdgeDq, List.getLast?_concat, List.dropLast_concat]

theorem replDoubleDq_cons_ne (c : Char) (t : Str) (h : c ≠ dq) :
    replDoubleDq (c :: t) = c :: replDoubleDq t := by
  cases t with
  | nil => rfl
  | cons d t2 =>
    simp only [replDoubleDq]
    rw [if_neg (fun hx => h hx.1)]

theorem replDoubleDq_dqdq (t : Str) :
    replDoubleDq (dq :: dq :: t) = dq :: replDoubleDq t := by
  simp [replDoubleDq]

theorem replDoubleDq_id : ∀ (s : Str), (∀ c ∈ s, c ≠ dq) → replDoubleDq s = s
  | [], _ => rfl
  | c :: t, h => by
    rw [replDoubleDq_cons_ne c t (h c (List.mem_cons_self ..))]
    rw [replDoubleDq_id t (fun x hx => h x (List.mem_cons_of_mem _ hx))]

theorem replDoubleDq_split : ∀ (u v : Str), (∀ c ∈ u, c ≠ dq) → (∀ c ∈ v, c ≠ dq) →
    replDoubleDq (u ++ dq :: dq :: v) = u ++ dq :: v
  | [], v, _, hv => by
    rw [List.nil_append, replDoubleDq_dqdq, replDoubleDq_id v hv, List.nil_append]
  | c :: u, v, hu, hv => by
    rw [List.cons_append, replDoubleDq_cons_ne _ _ (hu c (List.mem_cons_self ..))]
    rw [replDoubleDq_split u v (fun x hx => hu x (List.mem_cons_of_mem _ hx)) hv]
    rw [List.cons_append]

theorem c5_part1 (u v : Str)
    (hu : ∀ c ∈ u, plainChar c = true) (hv : ∀ c ∈ v, plainChar c = true) :
    parseCSV ('a' :: nlc :: dq :: (u ++ (dq :: dq :: (v ++ [dq])))) ',' =
      [[(['a'], Value.str (u ++ dq :: v))]] := by
  have hshape : 'a' :: nlc :: dq :: (u ++ (dq :: dq :: (v ++ [dq]))) =
      ('a' :: nlc :: dq :: (u ++ (dq :: dq :: v))) ++ [dq] := by simp
  have htrim : trimJs ('a' :: nlc :: dq :: (u ++ (dq :: dq :: (v ++ [dq])))) =
      'a' :: nlc :: dq :: (u ++ (dq :: dq :: (v ++ [dq]))) := by
    apply trimJs_id_ends
    · intro c hc
      obtain rfl : 'a' = c := by simpa using hc
      decide
    · intro c hc
      rw [hshape, List.getLast?_concat] at hc
      obtain rfl : dq = c := by simpa using hc
      decide
  have hcellmem : ∀ c ∈ dq :: (u ++ (dq :: dq :: (v ++ [dq]))), c ≠ nlc ∧ c ≠ crc := by
    intro c hc
    rcases List.mem_cons.mp hc with rfl | hc1
    · exact ⟨by decide, by decide⟩
    rcases List.mem_append.mp hc1 with hcu | hc2
    · exact (plain3 (hu c hcu)).2
    rcases List.mem_cons.mp hc2 with rfl | hc3
    · exact ⟨by decide, by decide⟩
    rcases List.mem_cons.mp hc3 with rfl | hc4
    · exact ⟨by decide, by decide⟩
    rcases List.mem_append.mp hc4 with hcv | hc5
    · exact (plain3 (hv c hcv)).2
    · obtain rfl : c = dq := by simpa using hc5
      exact ⟨by decide, by decide⟩
  have hsplit : splitLines ('a' :: nlc :: dq :: (u ++ (dq :: dq :: (v ++ [dq])))) =
      ['a'] :: [dq :: (u ++ (dq :: dq :: (v ++ [dq])))] := by
    rw [← List.singleton_append]
    rw [splitLines_cons_nl ['a'] _ (by decide)]
    rw [splitLines_no_nl _ hcellmem]
  have hqt := quotedTail_c5a u v hu hv
  have hmat : tryMatchAt (dq :: (u ++ (dq :: dq :: (v ++ [dq])))) =
      some (dq :: (u ++ (dq :: dq :: v)) ++ [dq], []) := tryMatchAt_quoted _ _ hqt
  have hms : csvFieldMatches (dq :: (u ++ (dq :: dq :: (v ++ [dq])))) =
      [dq :: (u ++ (dq :: dq :: v)) ++ [dq]] := by
    unfold csvFieldMatches
    rw [show (dq :: (u ++ (dq :: dq :: (v ++ [dq])))).length =
      (u ++ (dq :: dq :: (v ++ [dq]))).length + 1 from rfl]
    rw [csvFieldMatchesF_step _ _ _ _ _ hmat]
    rw [csvFieldMatchesF_nil]
  have hstrip : stripEdgeDq (dq :: (u ++ (dq :: dq :: (v ++ [dq])))) =
      u ++ (dq :: dq :: v) := by
    rw [show u ++ (dq :: dq :: (v ++ [dq])) = (u ++ (dq :: dq :: v)) ++ [dq] from by simp]
    exact stripEdgeDq_wrap _
  have hrepl : replDoubleDq (u ++ (dq :: dq :: v)) = u ++ dq :: v :=
    replDoubleDq_split u v (fun c hc => (plain3 (hu c hc)).1)
      (fun c hc => (plain3 (hv c hc)).1)
  have htrimval : trimJs (u ++ dq :: v) = u ++ dq :: v := by
    apply trimJs_id_all
    intro c hc
    rcases List.mem_append.mp hc with hcu | hc2
    · exact (plainChar_props (hu c hcu)).1
    rcases List.mem_cons.mp hc2 with rfl | hcv
    · decide
    · exact (plainChar_props (hv c hcv)).1
  have hH : (splitOnChar ',' ['a']).map (fun h => stripEdgeDq (trimJs h)) = [['a']] := by
    decide
  have hE : ([['a']] : List Str).enum = [(0, ['a'])] := by decide
  rw [parseCSV, htrim, hsplit]
  simp [hH, hms, hstrip, hrepl, htrimval, hE, jsSet, List.get?, List.headD]

theorem c5_part2 (u v : Str)
    (hu : ∀ c ∈ u, plainChar c = true) (hv : ∀ c ∈ v, plainChar c = true) :
    parseCSV ('a' :: nlc :: dq :: (u ++ (',' :: (v ++ [dq])))) ',' =
      [[(['a'], Value.str (u ++ ',' :: v))]] := by
  have hshape : 'a' :: nlc :: dq :: (u ++ (',' :: (v ++ [dq]))) =
      ('a' :: nlc :: dq :: (u ++ (',' :: v))) ++ [dq] := by simp
  have htrim : trimJs ('a' :: nlc :: dq :: (u ++ (',' :: (v ++ [dq])))) =
      'a' :: nlc :: dq :: (u ++ (',' :: (v ++ [dq]))) := by
    apply trimJs_id_ends
    · intro c hc
      obtain rfl : 'a' = c := by simpa using hc
      decide
    · intro c hc
      rw [hshape, List.getLast?_concat] at hc
      obtain rfl : dq = c := by simpa using hc
      decide
  have hcellmem : ∀ c ∈ dq :: (u ++ (',' :: (v ++ [dq]))), c ≠ nlc ∧ c ≠ crc := by
    intro c hc
    rcases List.mem_cons.mp hc with rfl | hc1
    · exact ⟨by decide, by decide⟩
    rcases List.mem_append.mp hc1 with hcu | hc2
    · exact (plain3 (hu c hcu)).2
    rcases List.mem_cons.mp hc2 with rfl | hc3
    · exact ⟨by decide, by decide⟩
    rcases List.mem_append.mp hc3 with hcv | hc4
    · exact (plain3 (hv c hcv)).2
    · obtain rfl : c = dq := by simpa using hc4
      exact ⟨by decide, by decide⟩
  have hsplit : splitLines ('a' :: nlc :: dq :: (u ++ (',' :: (v ++ [dq])))) =
      ['a'] :: [dq :: (u ++ (',' :: (v ++ [dq])))] := by
    rw [← List.singleton_append]
    rw [splitLines_cons_nl ['a'] _ (by decide)]
    rw [splitLines_no_nl _ hcellmem]
  have hqt : quotedTail (u ++ (',' :: (v ++ [dq]))) = some (u ++ ',' :: v, []) := by
    rw [show u ++ (',' :: (v ++ [dq])) = u ++ ',' :: v ++ [dq] from by simp]
    exact quotedTail_c5b u v hu hv
  have hmat : tryMatchAt (dq :: (u ++ (',' :: (v ++ [dq])))) =
      some (dq :: (u ++ ',' :: v) ++ [dq], []) := tryMatchAt_quoted _ _ hqt
  have hms : csvFieldMatches (dq :: (u ++ (',' :: (v ++ [dq])))) =
      [dq :: (u ++ ',' :: v) ++ [dq]] := by
    unfold csvFieldMatches
    rw [show (dq :: (u ++ (',' :: (v ++ [dq])))).length =
      (u ++ (',' :: (v ++ [dq]))).length + 1 from rfl]
    rw [csvFieldMatchesF_step _ _ _ _ _ hmat]
    rw [csvFieldMatchesF_nil]
  have hstrip : stripEdgeDq (dq :: (u ++ (',' :: (v ++ [dq])))) = u ++ ',' :: v := by
    rw [show u ++ (',' :: (v ++ [dq])) = (u ++ (',' :: v)) ++ [dq] from by simp]
    exact stripEdgeDq_wrap _
  have hrepl : replDoubleDq (u ++ ',' :: v) = u ++ ',' :: v := by
    apply replDoubleDq_id
    intro c hc
    rcases List.mem_append.mp hc with hcu | hc2
    · exact (plain3 (hu c hcu)).1
    rcases List.mem_cons.mp hc2 with rfl | hcv
    · decide
    · exact (plain3 (hv c hcv)).1
  have htrimval : trimJs (u ++ ',' :: v) = u ++ ',' :: v := by
    apply trimJs_id_all
    intro c hc
    rcases List.mem_append.mp hc with hcu | hc2
    · exact (plainChar_props (hu c hcu)).1
    rcases List.mem_cons.mp hc2 with rfl | hcv
    · decide
    · exact (plainChar_props (hv c hcv)).1
  have hH : (splitOnChar ',' ['a']).map (fun h => stripEdgeDq (trimJs h)) = [['a']] := by
    decide
  have hE : ([['a']] : List Str).enum = [(0, ['a'])] := by decide
  rw [parseCSV, htrim, hsplit]
  simp [hH, hms, hstrip, hrepl, htrimval, hE, jsSet, List.get?, List.headD]

/-! ### CSV round-trip lemmas: serialization shape, header recovery,
field-regex evaluation and record building -/

theorem plainKey_props {k : Str} (h : plainKey k = true) :
    k ≠ [] ∧ ∀ c ∈ k, isJsSpace c = false ∧ c ≠ dq ∧ c ≠ ',' := by
  have h' : (!k.isEmpty) = true ∧ ∀ c ∈ k, ((!isJsSpace c) && (c ≠ dq : Bool) && (c ≠ ',' : Bool)) = true := by
    simpa [plainKey, List.all_eq_true] using h
  constructor
  · intro hk
    rw [hk] at h'
    exact absurd h'.1 (by decide)
  · intro c hc
    have := h'.2 c hc
    simp only [Bool.and_eq_true, Bool.not_eq_true', decide_eq_true_eq] at this
    exact ⟨this.1.1, this.1.2, this.2⟩

theorem plainCellStr_props {s : Str} (h : plainCellStr s = true) :
    (∀ c ∈ s, c ≠ dq ∧ c ≠ nlc ∧ c ≠ crc) ∧ trimJs s = s := by
  have h' : (∀ c ∈ s, ((c ≠ dq : Bool) && (c ≠ nlc : Bool) && (c ≠ crc : Bool)) = true) ∧ trimJs s = s := by
    simpa [plainCellStr, List.all_eq_true] using h
  refine ⟨fun c hc => ?_, h'.2⟩
  have := h'.1 c hc
  simp only [Bool.and_eq_true, decide_eq_true_eq] at this
  exact ⟨this.1.1, this.1.2, this.2⟩

theorem escDq_id : ∀ (s : Str), (∀ c ∈ s, c ≠ dq) → escDq s = s
  | [], _ => rfl
  | c :: t, h => by
    simp only [escDq]
    rw [if_neg (h c (List.mem_cons_self ..))]
    rw [escDq_id t (fun x hx => h x (List.mem_cons_of_mem _ hx))]

theorem stripEdgeDq_id : ∀ (s : Str), (∀ c ∈ s, c ≠ dq) → stripEdgeDq s = s
  | [], _ => rfl
  | c :: t, h => by
    have hc := h c (List.mem_cons_self ..)
    simp only [stripEdgeDq, if_neg hc]
    cases hL : (c :: t).getLast? with
    | none => rfl
    | some d => simp [h d (mem_of_getLastQ _ _ hL)]

theorem dedup_foldl_absorb : ∀ (l acc : List Str), (∀ k ∈ l, k ∈ acc) →
    l.foldl (fun acc k => if k ∈ acc then acc else acc ++ [k]) acc = acc
  | [], _, _ => rfl
  | k :: l, acc, h => by
    rw [List.foldl_cons, if_pos (h k (List.mem_cons_self ..))]
    exact dedup_foldl_absorb l acc (fun x hx => h x (List.mem_cons_of_mem _ hx))

theorem dedup_foldl_fresh : ∀ (ks acc : List Str), ks.Nodup → (∀ k ∈ ks, k ∉ acc) →
    ks.foldl (fun acc k => if k ∈ acc then acc else acc ++ [k]) acc = acc ++ ks
  | [], acc, _, _ => by simp
  | k :: ks, acc, hnd, h => by
    rw [List.foldl_cons, if_neg (h k (List.mem_cons_self ..))]
    rw [dedup_foldl_fresh ks (acc ++ [k]) (List.nodup_cons.mp hnd).2 ?fresh]
    · simp
    case fresh =>
      intro x hx hmem
      rcases List.mem_append.mp hmem with h1 | h2
      · exact h x (List.mem_cons_of_mem _ hx) h1
      · obtain rfl : x = k := by simpa using h2
        exact (List.nodup_cons.mp hnd).1 hx

theorem dedupFirst_eq (ks rest : List Str) (hnd : ks.Nodup)
    (hrest : ∀ x ∈ rest, x ∈ ks) : dedupFirst (ks ++ rest) = ks := by
  unfold dedupFirst
  rw [List.foldl_append]
  rw [dedup_foldl_fresh ks [] hnd (by simp)]
  rw [List.nil_append]
  exact dedup_foldl_absorb rest ks hrest

theorem flatMap_keys (ks : List Str) : ∀ (rows : List (List Value)),
    (∀ r ∈ rows, r.length = ks.length) →
    (rows.map (fun r => Value.record (ks.zip r))).flatMap jsObjectKeys
      = rows.flatMap (fun _ => ks)
  | [], _ => rfl
  | r :: rows, h => by
    simp only [List.map_cons, List.flatMap_cons]
    rw [flatMap_keys ks rows (fun x hx => h x (List.mem_cons_of_mem _ hx))]
    congr 1
    show (ks.zip r).map Prod.fst = ks
    exact List.map_fst_zip ks r (le_of_eq (h r (List.mem_cons_self ..)).symm)

theorem jsGet_nodup : ∀ (fs : List (Str × Value)) (k : Str) (v : Value),
    (fs.map Prod.fst).Nodup → (k, v) ∈ fs → jsGet (Value.record fs) k = some v
  | [], _, _, _, hmem => by simp at hmem
  | p :: fs, k, v, hnd, hmem => by
    have hnd' : p.1 ∉ fs.map Prod.fst ∧ (fs.map Prod.fst).Nodup := by
      rw [List.map_cons] at hnd
      exact List.nodup_cons.mp hnd
    rcases List.mem_cons.mp hmem with rfl | h2
    · simp [jsGet]
    · have hk : k ∈ fs.map Prod.fst := by
        simpa using List.mem_map_of_mem Prod.fst h2
      have hne : (p.1 == k) = false := by
        rw [beq_eq_false_iff_ne]
        intro he
        exact hnd'.1 (he ▸ hk)
      have hrec := jsGet_nodup fs k v hnd'.2 h2
      simp only [jsGet] at hrec ⊢
      rw [List.find?_cons, hne]
      exact hrec

theorem csvCell_eq (fs0 : List (Str × Value)) (k : Str) (x : Value)
    (hnd : (fs0.map Prod.fst).Nodup) (hmem : (k, x) ∈ fs0)
    (hdq : ∀ c ∈ csvStringForm x, c ≠ dq) :
    csvCell (Value.record fs0) k = dq :: (csvStringForm x ++ [dq]) := by
  unfold csvCell
  rw [jsGet_nodup fs0 k x hnd hmem]
  cases x with
  | vnull =>
    show dq :: escDq (jsString (Value.str [])) ++ [dq]
      = dq :: (csvStringForm Value.vnull ++ [dq])
    rfl
  | vbool b =>
    show dq :: escDq (jsString (Value.vbool b)) ++ [dq]
      = dq :: (csvStringForm (Value.vbool b) ++ [dq])
    rw [escDq_id _ (by simpa [csvStringForm] using hdq)]
    simp [csvStringForm]
  | num n =>
    show dq :: escDq (jsString (Value.num n)) ++ [dq]
      = dq :: (csvStringForm (Value.num n) ++ [dq])
    rw [escDq_id _ (by simpa [csvStringForm] using hdq)]
    simp [csvStringForm]
  | str s =>
    show dq :: escDq (jsString (Value.str s)) ++ [dq]
      = dq :: (csvStringForm (Value.str s) ++ [dq])
    rw [escDq_id _ (by simpa [csvStringForm] using hdq)]
    simp [csvStringForm]
  | list xs =>
    show dq :: escDq (jsString (Value.list xs)) ++ [dq]
      = dq :: (csvStringForm (Value.list xs) ++ [dq])
    rw [escDq_id _ (by simpa [csvStringForm] using hdq)]
    simp [csvStringForm]
  | record fs =>
    show dq :: escDq (jsString (Value.record fs)) ++ [dq]
      = dq :: (csvStringForm (Value.record fs) ++ [dq])
    rw [escDq_id _ (by simpa [csvStringForm] using hdq)]
    simp [csvStringForm]

theorem map_csvCell_go : ∀ (ps fs0 : List (Str × Value)),
    (fs0.map Prod.fst).Nodup → (∀ p ∈ ps, p ∈ fs0) →
    (∀ p ∈ ps, ∀ c ∈ csvStringForm p.2, c ≠ dq) →
    (ps.map Prod.fst).map (csvCell (Value.record fs0))
      = ps.map (fun p => dq :: (csvStringForm p.2 ++ [dq]))
  | [], _, _, _, _ => rfl
  | p :: ps, fs0, hnd, hsub, hdq => by
    simp only [List.map_cons]
    rw [csvCell_eq fs0 p.1 p.2 hnd (hsub p (List.mem_cons_self ..))
      (hdq p (List.mem_cons_self ..))]
    rw [map_csvCell_go ps fs0 hnd (fun x hx => hsub x (List.mem_cons_of_mem _ hx))
      (fun x hx => hdq x (List.mem_cons_of_mem _ hx))]

theorem map_csvCell (ks : List Str) (r : List Value)
    (hnd : ks.Nodup) (hlen : r.length = ks.length)
    (hdq : ∀ x ∈ r, ∀ c ∈ csvStringForm x, c ≠ dq) :
    ks.map (csvCell (Value.record (ks.zip r)))
      = r.map (fun x => dq :: (csvStringForm x ++ [dq])) := by
  have hfst : (ks.zip r).map Prod.fst = ks :=
    List.map_fst_zip ks r (le_of_eq hlen.symm)
  have hmain := map_csvCell_go (ks.zip r) (ks.zip r)
    (by rw [hfst]; exact hnd) (fun p hp => hp)
    (fun p hp c hc => hdq p.2 (List.of_mem_zip hp).2 c hc)
  rw [hfst] at hmain
  rw [hmain]
  rw [show (fun p : Str × Value => dq :: (csvStringForm p.2 ++ [dq]))
    = (fun x : Value => dq :: (csvStringForm x ++ [dq])) ∘ Prod.snd from rfl]
  rw [← List.map_map]
  rw [List.map_snd_zip ks r (le_of_eq hlen)]

theorem joinSep_cons2 (sep x y : Str) (t : List Str) :
    joinSep sep (x :: y :: t) = x ++ sep ++ joinSep sep (y :: t) := rfl

theorem joinSep_head (sep : Str) (c : Char) (t : Str) (l : List Str) :
    ∃ X, joinSep sep ((c :: t) :: l) = c :: X := by
  cases l with
  | nil => exact ⟨t, rfl⟩
  | cons y l2 =>
    refine ⟨t ++ sep ++ joinSep sep (y :: l2), ?_⟩
    rw [joinSep_cons2]
    simp

theorem joinSep_ends : ∀ (sep : Str) (l : List Str) (x : Str),
    ∃ Y, joinSep sep (l ++ [x]) = Y ++ x
  | _, [], x => ⟨[], by simp [joinSep]⟩
  | sep, y :: l, x => by
    obtain ⟨Y, hY⟩ := joinSep_ends sep l x
    cases l with
    | nil => exact ⟨y ++ sep, by simp [joinSep]⟩
    | cons z l2 =>
      refine ⟨y ++ sep ++ Y, ?_⟩
      rw [List.cons_append, List.cons_append, joinSep_cons2]
      rw [show (z :: l2) ++ [x] = z :: (l2 ++ [x]) from rfl] at hY
      rw [hY]
      simp

theorem mem_joinSep : ∀ (sep : Str) (ls : List Str) (c : Char),
    c ∈ joinSep sep ls → (∃ l ∈ ls, c ∈ l) ∨ c ∈ sep
  | _, [], _, h => by simp [joinSep] at h
  | _, [x], c, h => Or.inl ⟨x, by simp, h⟩
  | sep, x :: y :: t, c, h => by
    rw [joinSep_cons2] at h
    rcases List.mem_append.mp h with h1 | h2
    · rcases List.mem_append.mp h1 with h3 | h4
      · exact Or.inl ⟨x, List.mem_cons_self .., h3⟩
      · exact Or.inr h4
    · rcases mem_joinSep sep (y :: t) c h2 with ⟨l, hl, hc⟩ | hs
      · exact Or.inl ⟨l, List.mem_cons_of_mem _ hl, hc⟩
      · exact Or.inr hs

theorem splitOnChar_ne_nil : ∀ (d : Char) (s : Str), splitOnChar d s ≠ []
  | _, [] => by simp [splitOnChar]
  | d, c :: t => by
    simp only [splitOnChar]
    cases hS : splitOnChar d t with
    | nil => exact absurd hS (splitOnChar_ne_nil d t)
    | cons h r =>
      by_cases hc : c = d
      · simp [hc]
      · simp [hc]

theorem splitOnChar_no_delim : ∀ (d : Char) (s : Str), (∀ c ∈ s, c ≠ d) →
    splitOnChar d s = [s]
  | _, [], _ => rfl
  | d, c :: t, h => by
    simp only [splitOnChar]
    rw [splitOnChar_no_delim d t (fun x hx => h x (List.mem_cons_of_mem _ hx))]
    simp [h c (List.mem_cons_self ..)]

theorem splitOnChar_append_delim : ∀ (d : Char) (x rest : Str), (∀ c ∈ x, c ≠ d) →
    splitOnChar d (x ++ d :: rest) = x :: splitOnChar d rest
  | d, [], rest, _ => by
    rw [List.nil_append]
    simp only [splitOnChar]
    cases hS : splitOnChar d rest with
    | nil => exact absurd hS (splitOnChar_ne_nil d rest)
    | cons h r => simp
  | d, c :: x, rest, h => by
    rw [List.cons_append]
    simp only [splitOnChar]
    rw [splitOnChar_append_delim d x rest (fun a ha => h a (List.mem_cons_of_mem _ ha))]
    simp [h c (List.mem_cons_self ..)]

theorem splitOnChar_joinSep : ∀ (d : Char) (ls : List Str), ls ≠ [] →
    (∀ l ∈ ls, ∀ c ∈ l, c ≠ d) → splitOnChar d (joinSep [d] ls) = ls
  | d, [], h0, _ => absurd rfl h0
  | d, [x], _, h => splitOnChar_no_delim d x (h x (List.mem_cons_self ..))
  | d, x :: y :: t, _, h => by
    rw [joinSep_cons2]
    rw [show x ++ [d] ++ joinSep [d] (y :: t) = x ++ (d :: joinSep [d] (y :: t)) from by simp]
    rw [splitOnChar_append_delim d x _ (h x (List.mem_cons_self ..))]
    rw [splitOnChar_joinSep d (y :: t) (by simp)
      (fun l hl => h l (List.mem_cons_of_mem _ hl))]

theorem splitLines_joinSep : ∀ (ls : List Str), ls ≠ [] →
    (∀ l ∈ ls, ∀ c ∈ l, c ≠ nlc ∧ c ≠ crc) →
    splitLines (joinSep [nlc] ls) = ls
  | [], h0, _ => absurd rfl h0
  | [x], _, h => splitLines_no_nl x (h x (List.mem_cons_self ..))
  | x :: y :: t, _, h => by
    rw [joinSep_cons2]
    rw [show x ++ [nlc] ++ joinSep [nlc] (y :: t) = x ++ (nlc :: joinSep [nlc] (y :: t))
      from by simp]
    rw [splitLines_cons_nl x _ (h x (List.mem_cons_self ..))]
    rw [splitLines_joinSep (y :: t) (by simp) (fun l hl => h l (List.mem_cons_of_mem _ hl))]

theorem lookaheadOk_comma (t : Str) : lookaheadOk (',' :: t) = true := rfl

theorem tryMatchAt_comma (t : Str) : tryMatchAt (',' :: t) = none := by
  simp only [tryMatchAt]
  rw [if_neg (show ¬(',' = dq) by decide)]
  rw [if_neg]
  intro hx
  have : (',' :: t).takeWhile (fun x => ¬(x = dq ∨ x = ',' ∨ isJsSpace x)) = [] := by
    rw [List.takeWhile_cons]
    simp
  exact hx.1 this

theorem tryMatchAt_wrapped (m rest : Str) (hm : ∀ c ∈ m, c ≠ dq ∧ c ≠ nlc ∧ c ≠ crc)
    (hla : lookaheadOk rest = true) :
    tryMatchAt (dq :: (m ++ (dq :: rest))) = some (dq :: (m ++ [dq]), rest) := by
  have hqt : quotedTail (m ++ (dq :: rest)) = some (m, rest) := by
    rw [quotedTail_skip m _ hm, quotedTail_close rest hla]
    simp
  simp [tryMatchAt, hqt]

theorem csvFieldMatchesF_skip (f : Nat) (c : Char) (t : Str)
    (h : tryMatchAt (c :: t) = none) :
    csvFieldMatchesF (f + 1) (c :: t) = csvFieldMatchesF f t := by
  simp only [csvFieldMatchesF, h]

theorem csvMatchesF_go : ∀ (ms : List Str) (f : Nat),
    (∀ s ∈ ms, ∃ m, s = dq :: (m ++ [dq]) ∧ ∀ c ∈ m, c ≠ dq ∧ c ≠ nlc ∧ c ≠ crc) →
    (joinSep [','] ms).length ≤ f → ms ≠ [] →
    csvFieldMatchesF f (joinSep [','] ms) = ms
  | [], _, _, _, h0 => absurd rfl h0
  | [s], f, h, hf, _ => by
    obtain ⟨m, rfl, hm⟩ := h s (List.mem_cons_self ..)
    have hlen : m.length + 2 ≤ f := by
      simpa [joinSep] using hf
    obtain ⟨f1, rfl⟩ : ∃ f1, f = f1 + 1 := ⟨f - 1, by omega⟩
    show csvFieldMatchesF (f1 + 1) (dq :: (m ++ [dq])) = [dq :: (m ++ [dq])]
    rw [csvFieldMatchesF_step _ _ _ _ _ (tryMatchAt_wrapped m [] hm rfl)]
    rw [csvFieldMatchesF_nil]
  | s :: s2 :: ms2, f, h, hf, _ => by
    obtain ⟨m, rfl, hm⟩ := h s (List.mem_cons_self ..)
    have hJ : joinSep [','] ((dq :: (m ++ [dq])) :: s2 :: ms2)
        = dq :: (m ++ (dq :: (',' :: joinSep [','] (s2 :: ms2)))) := by
      rw [joinSep_cons2]
      simp
    have hlen : m.length + 3 + (joinSep [','] (s2 :: ms2)).length ≤ f := by
      rw [hJ] at hf
      simp only [List.length_cons, List.length_append] at hf
      omega
    obtain ⟨f2, rfl⟩ : ∃ f2, f = f2 + 1 + 1 := ⟨f - 2, by omega⟩
    rw [hJ]
    rw [csvFieldMatchesF_step _ _ _ _ _
      (tryMatchAt_wrapped m (',' :: joinSep [','] (s2 :: ms2)) hm (lookaheadOk_comma _))]
    rw [csvFieldMatchesF_skip _ _ _ (tryMatchAt_comma _)]
    rw [csvMatchesF_go (s2 :: ms2) f2
      (fun x hx => h x (List.mem_cons_of_mem _ hx)) (by omega) (by simp)]

theorem getQ_of_drop : ∀ (row : List Str) (i : Nat) (c : Str) (t : List Str),
    row.drop i = c :: t → row.get? i = some c
  | [], i, _, _, h => by simp at h
  | x :: row, 0, c, t, h => by
    simp only [List.drop_zero] at h
    cases h
    rfl
  | x :: row, i + 1, c, t, h => by
    simp only [List.drop_succ_cons] at h
    simpa using getQ_of_drop row i c t h

theorem drop_succ_of_drop : ∀ (row : List Str) (i : Nat) (c : Str) (t : List Str),
    row.drop i = c :: t → row.drop (i + 1) = t
  | [], i, _, _, h => by simp at h
  | x :: row, 0, c, t, h => by
    simp only [List.drop_zero] at h
    cases h
    simp
  | x :: row, i + 1, c, t, h => by
    simp only [List.drop_succ_cons] at h
    rw [List.drop_succ_cons]
    exact drop_succ_of_drop row i c t h

theorem csv_fold_build : ∀ (ks : List Str) (cells : List Str) (i : Nat) (row : List Str)
    (acc : List (Str × Value)),
    row.drop i = cells → ks.length = cells.length → ks.Nodup →
    (∀ c ∈ cells, trimJs c = c) →
    (∀ k ∈ ks, acc.any (fun p => p.1 == k) = false) →
    (List.enumFrom i ks).foldl
      (fun fs p => jsSet fs p.2 (Value.str ((Option.map trimJs (row.get? p.1)).getD [])))
      acc
      = acc ++ ks.zip (cells.map Value.str)
  | [], [], _, _, acc, _, _, _, _, _ => by simp
  | [], c :: cells, _, _, _, _, hlen, _, _, _ => by simp at hlen
  | k :: ks, [], _, _, _, _, hlen, _, _, _ => by simp at hlen
  | k :: ks, c :: cells, i, row, acc, hdrop, hlen, hnd, htr, hfresh => by
    show List.foldl _ acc ((i, k) :: List.enumFrom (i + 1) ks) = _
    rw [List.foldl_cons]
    have hget : row.get? i = some c := getQ_of_drop row i c cells hdrop
    have hstep : jsSet acc k (Value.str ((Option.map trimJs (row.get? i)).getD []))
        = acc ++ [(k, Value.str c)] := by
      rw [hget]
      show jsSet acc k (Value.str (trimJs c)) = _
      rw [htr c (List.mem_cons_self ..)]
      unfold jsSet
      rw [hfresh k (List.mem_cons_self ..)]
      simp
    rw [hstep]
    rw [csv_fold_build ks cells (i + 1) row (acc ++ [(k, Value.str c)])
      (drop_succ_of_drop row i c cells hdrop) (by simpa using hlen)
      (List.nodup_cons.mp hnd).2 (fun x hx => htr x (List.mem_cons_of_mem _ hx)) ?fresh2]
    · simp
    case fresh2 =>
      intro k2 hk2
      rw [List.any_append]
      rw [hfresh k2 (List.mem_cons_of_mem _ hk2)]
      simp only [Bool.false_or, List.any_cons, List.any_nil, Bool.or_false]
      rw [beq_eq_false_iff_ne]
      intro he
      exact (List.nodup_cons.mp hnd).1 (he ▸ hk2)

theorem nonws_not_nl {c : Char} (h : isJsSpace c = false) : c ≠ nlc ∧ c ≠ crc := by
  constructor
  · intro he
    rw [he] at h
    exact absurd h (by decide)
  · intro he
    rw [he] at h
    exact absurd h (by decide)

theorem c1_headers (ks : List Str) (r0 : List Value) (rows2 : List (List Value))
    (hnd : ks.Nodup) (hlen : ∀ r ∈ r0 :: rows2, r.length = ks.length) :
    dedupFirst (((r0 :: rows2).map (fun r => Value.record (ks.zip r))).flatMap jsObjectKeys)
      = ks := by
  rw [flatMap_keys ks _ hlen]
  rw [show (r0 :: rows2).flatMap (fun _ => ks) = ks ++ rows2.flatMap (fun _ => ks) from by
    simp [List.flatMap_cons]]
  apply dedupFirst_eq _ _ hnd
  intro x hx
  rcases List.mem_flatMap.mp hx with ⟨a, _, hxk⟩
  exact hxk

theorem c1_line_matches (r : List Value) (hr0 : r ≠ [])
    (hvals : ∀ x ∈ r, ∀ c ∈ csvStringForm x, c ≠ dq ∧ c ≠ nlc ∧ c ≠ crc) :
    csvFieldMatches (joinSep [','] (r.map (fun x => dq :: (csvStringForm x ++ [dq]))))
      = r.map (fun x => dq :: (csvStringForm x ++ [dq])) := by
  unfold csvFieldMatches
  apply csvMatchesF_go
  · intro s hs
    rcases List.mem_map.mp hs with ⟨x, hx, rfl⟩
    exact ⟨csvStringForm x, rfl, hvals x hx⟩
  · exact le_refl _
  · simpa using hr0

theorem c1_row0 (r : List Value)
    (hdq : ∀ x ∈ r, ∀ c ∈ csvStringForm x, c ≠ dq) :
    (r.map (fun x => dq :: (csvStringForm x ++ [dq]))).map
        (fun m => replDoubleDq (stripEdgeDq m))
      = r.map (fun x => csvStringForm x) := by
  rw [List.map_map]
  apply List.map_congr_left
  intro x hx
  show replDoubleDq (stripEdgeDq (dq :: (csvStringForm x ++ [dq]))) = csvStringForm x
  rw [stripEdgeDq_wrap]
  exact replDoubleDq_id _ (hdq x hx)

theorem c1_line_fold (ks : List Str) (cells : List Str)
    (hnd : ks.Nodup) (hlen : ks.length = cells.length)
    (htr : ∀ c ∈ cells, trimJs c = c) :
    ks.enum.foldl
      (fun fs p => jsSet fs p.2 (Value.str ((Option.map trimJs (cells.get? p.1)).getD [])))
      []
      = ks.zip (cells.map Value.str) := by
  have hmain := csv_fold_build ks cells 0 cells [] (by simp) hlen hnd htr (by simp)
  rw [show ks.enum = List.enumFrom 0 ks from rfl]
  rw [hmain]
  simp

theorem c1_hline_chars (ks : List Str) (hkp : ∀ k ∈ ks, plainKey k = true) :
    ∀ c ∈ joinSep [','] ks, c ≠ nlc ∧ c ≠ crc := by
  intro c hc
  rcases mem_joinSep _ _ _ hc with ⟨k, hk, hck⟩ | hsep
  · exact nonws_not_nl ((plainKey_props (hkp k hk)).2 c hck).1
  · obtain rfl : c = ',' := by simpa using hsep
    exact ⟨by decide, by decide⟩

theorem c1_lineOf_chars (r : List Value)
    (hvals : ∀ x ∈ r, plainCellStr (csvStringForm x) = true) :
    ∀ c ∈ joinSep [','] (r.map (fun x => dq :: (csvStringForm x ++ [dq]))),
      c ≠ nlc ∧ c ≠ crc := by
  intro c hc
  rcases mem_joinSep _ _ _ hc with ⟨l, hl, hcl⟩ | hsep
  · rcases List.mem_map.mp hl with ⟨x, hx, rfl⟩
    rcases List.mem_cons.mp hcl with rfl | hc2
    · exact ⟨by decide, by decide⟩
    rcases List.mem_append.mp hc2 with hc3 | hc4
    · exact ((plainCellStr_props (hvals x hx)).1 c hc3).2
    · obtain rfl : c = dq := by simpa using hc4
      exact ⟨by decide, by decide⟩
  · obtain rfl : c = ',' := by simpa using hsep
    exact ⟨by decide, by decide⟩

theorem c1_text (ks : List Str) (r0 : List Value) (rows2 : List (List Value))
    (hnd : ks.Nodup)
    (hlen : ∀ r ∈ r0 :: rows2, r.length = ks.length)
    (hvals : ∀ r ∈ r0 :: rows2, ∀ x ∈ r, plainCellStr (csvStringForm x) = true) :
    toCSV (Value.list ((r0 :: rows2).map (fun r => Value.record (ks.zip r)))) ','
      = joinSep [nlc] (joinSep [','] ks ::
          (r0 :: rows2).map
            (fun r => joinSep [','] (r.map (fun x => dq :: (csvStringForm x ++ [dq]))))) := by
  simp only [toCSV, jsToArray]
  rw [if_neg (by simp)]
  rw [c1_headers ks r0 rows2 hnd hlen]
  congr 1
  congr 1
  rw [List.map_map]
  apply List.map_congr_left
  intro r hr
  show joinSep [','] (ks.map (csvCell (Value.record (ks.zip r)))) = _
  rw [map_csvCell ks r hnd (hlen r hr)
    (fun x hx c hc => ((plainCellStr_props (hvals r hr x hx)).1 c hc).1)]

theorem c1_trim (ks : List Str) (r0 : List Value) (rows2 : List (List Value))
    (hkp : ∀ k ∈ ks, plainKey k = true) (hk0 : ks ≠ [])
    (hlen : ∀ r ∈ r0 :: rows2, r.length = ks.length) :
    trimJs (joinSep [nlc] (joinSep [','] ks ::
        (r0 :: rows2).map
          (fun r => joinSep [','] (r.map (fun x => dq :: (csvStringForm x ++ [dq]))))))
      = joinSep [nlc] (joinSep [','] ks ::
          (r0 :: rows2).map
            (fun r => joinSep [','] (r.map (fun x => dq :: (csvStringForm x ++ [dq]))))) := by
  have hlast : (joinSep [nlc] (joinSep [','] ks ::
      (r0 :: rows2).map
        (fun r => joinSep [','] (r.map (fun x => dq :: (csvStringForm x ++ [dq])))))).getLast?
      = some dq := by
    rcases List.eq_nil_or_concat (r0 :: rows2) with he | ⟨rs, rl, hrl⟩
    · exact absurd he (by simp)
    · rw [List.concat_eq_append] at hrl
      have hmemrl : rl ∈ r0 :: rows2 := by
        rw [hrl]
        exact List.mem_append.mpr (Or.inr (List.mem_cons_self ..))
      have hrlne : rl ≠ [] := by
        intro hrl0
        have hx := hlen rl hmemrl
        rw [hrl0] at hx
        exact hk0 (List.length_eq_zero.mp hx.symm)
      rcases List.eq_nil_or_concat rl with h0 | ⟨cl, xl, hxl⟩
      · exact absurd h0 hrlne
      rw [List.concat_eq_append] at hxl
      rw [hrl, List.map_append]
      rw [show List.map (fun r => joinSep [','] (r.map (fun x => dq :: (csvStringForm x ++ [dq])))) [rl]
        = [joinSep [','] (rl.map (fun x => dq :: (csvStringForm x ++ [dq])))] from rfl]
      rw [← List.cons_append]
      obtain ⟨Y3, hY3⟩ := joinSep_ends [nlc]
        (joinSep [','] ks ::
          rs.map (fun r => joinSep [','] (r.map (fun x => dq :: (csvStringForm x ++ [dq])))))
        (joinSep [','] (rl.map (fun x => dq :: (csvStringForm x ++ [dq]))))
      rw [hY3]
      rw [hxl, List.map_append]
      rw [show List.map (fun x => dq :: (csvStringForm x ++ [dq])) [xl]
        = [dq :: (csvStringForm xl ++ [dq])] from rfl]
      obtain ⟨Y2, hY2⟩ := joinSep_ends [',']
        (cl.map (fun x => dq :: (csvStringForm x ++ [dq]))) (dq :: (csvStringForm xl ++ [dq]))
      rw [hY2]
      rw [show Y3 ++ (Y2 ++ (dq :: (csvStringForm xl ++ [dq])))
        = (Y3 ++ (Y2 ++ (dq :: csvStringForm xl))) ++ [dq] from by simp]
      exact List.getLast?_concat _
  apply trimJs_id_ends
  · obtain ⟨k0, ks1, rfl⟩ := List.exists_cons_of_ne_nil hk0
    have hk0p := plainKey_props (hkp k0 (List.mem_cons_self ..))
    obtain ⟨c0, k0t, hc0⟩ := List.exists_cons_of_ne_nil hk0p.1
    rw [hc0]
    obtain ⟨X1, hX1⟩ := joinSep_head [','] c0 k0t ks1
    rw [hX1]
    obtain ⟨X2, hX2⟩ := joinSep_head [nlc] c0 X1 _
    rw [hX2]
    intro c hc
    obtain rfl : c0 = c := by simpa using hc
    have := (hk0p.2 c0 (by rw [hc0]; exact List.mem_cons_self ..)).1
    exact this
  · intro c hc
    rw [hlast] at hc
    obtain rfl : dq = c := by simpa using hc
    decide

theorem c1_main (ks : List Str) (r0 : List Value) (rows2 : List (List Value))
    (hnd : ks.Nodup) (hkp : ∀ k ∈ ks, plainKey k = true) (hk0 : ks ≠ [])
    (hlen : ∀ r ∈ r0 :: rows2, r.length = ks.length)
    (hvals : ∀ r ∈ r0 :: rows2, ∀ x ∈ r, plainCellStr (csvStringForm x) = true) :
    parseCSV (toCSV (Value.list ((r0 :: rows2).map (fun r => Value.record (ks.zip r)))) ',') ','
      = (r0 :: rows2).map (fun r => ks.zip (r.map (fun x => Value.str (csvStringForm x)))) := by
  rw [c1_text ks r0 rows2 hnd hlen hvals]
  rw [parseCSV]
  rw [c1_trim ks r0 rows2 hkp hk0 hlen]
  rw [splitLines_joinSep _ (by simp) ?chars]
  case chars =>
    intro l hl
    rcases List.mem_cons.mp hl with rfl | hl2
    · exact c1_hline_chars ks hkp
    · rcases List.mem_map.mp hl2 with ⟨r, hr, rfl⟩
      exact c1_lineOf_chars r (hvals r hr)
  rw [if_neg (by simp)]
  have hHp : List.map (fun h => stripEdgeDq (trimJs h)) (splitOnChar ',' (joinSep [','] ks))
      = ks := by
    rw [splitOnChar_joinSep ',' ks hk0
      (fun k hk c hc => ((plainKey_props (hkp k hk)).2 c hc).2.2)]
    have hpt : ∀ k ∈ ks, stripEdgeDq (trimJs k) = k := by
      intro k hk
      rw [trimJs_id_all k (fun c hc => ((plainKey_props (hkp k hk)).2 c hc).1)]
      exact stripEdgeDq_id k (fun c hc => ((plainKey_props (hkp k hk)).2 c hc).2.1)
    rw [List.map_congr_left hpt]
    simp
  rw [show (joinSep [','] ks ::
      List.map (fun r => joinSep [','] (List.map (fun x => dq :: (csvStringForm x ++ [dq])) r))
        (r0 :: rows2)).headD [] = joinSep [','] ks from rfl]
  rw [hHp]
  rw [show List.drop 1 (joinSep [','] ks ::
      List.map (fun r => joinSep [','] (List.map (fun x => dq :: (csvStringForm x ++ [dq])) r))
        (r0 :: rows2))
    = List.map (fun r => joinSep [','] (List.map (fun x => dq :: (csvStringForm x ++ [dq])) r))
        (r0 :: rows2) from rfl]
  rw [List.map_map]
  apply List.map_congr_left
  intro r hr
  have hr0 : r ≠ [] := by
    intro he
    have hx := hlen r hr
    rw [he] at hx
    exact hk0 (List.length_eq_zero.mp hx.symm)
  have hmat := c1_line_matches r hr0 (fun x hx => (plainCellStr_props (hvals r hr x hx)).1)
  have hrow0 := c1_row0 r (fun x hx c hc => ((plainCellStr_props (hvals r hr x hx)).1 c hc).1)
  have hfold := c1_line_fold ks (r.map (fun x => csvStringForm x)) hnd
    (by rw [List.length_map, hlen r hr]) ?htr
  case htr =>
    intro c hc
    rcases List.mem_map.mp hc with ⟨x, hx, rfl⟩
    exact (plainCellStr_props (hvals r hr x hx)).2
  simp only [Function.comp]
  simp [hmat, hrow0, hlen r hr, hr0]
  simpa using hfold

/-! ## Claim theorems -/

/-- C10: serializing the empty list yields the empty string for both tabular
serializers — `toCSV` emits no header-only output and `toSQL` emits no
statement-shaped output. -/
theorem c10_empty_list_serializers (d : Char) (t : Str) :
    toCSV (Value.list []) d = [] ∧ toSQL (Value.list []) t = [] :=
  ⟨rfl, rfl⟩

/-- C7: whenever any explicit-columns INSERT statement matches anywhere in
the input, the whole result comes from the explicit-columns matches alone —
the no-columns shape contributes nothing, for the entire document. -/
theorem c7_shape1_total_precedence (s : Str) (h : scanIns1 s ≠ []) :
    parseSQL s =
      (scanIns1 s).flatMap
        (fun m => sqlRowsToRecords (parseCols m.1) (parseSQLValuesString m.2)) := by
  simp [parseSQL, h]

/-- Witness for C7: a dump with one statement of each shape parses to the
explicit-columns record only; the no-columns tuple `(2)` never appears. -/
theorem c7_shape1_total_precedence_witness :
    scanIns1 sqlBothShapes ≠ [] ∧
      parseSQL sqlBothShapes = [[("x".toList, Value.num (finInt 1))]] :=
  ⟨by decide, by
    rw [c7_shape1_total_precedence sqlBothShapes (by decide)]
    decide⟩

/-- C8: in the explicit-columns row loop, exactly the tuples whose arity
matches the column count each produce one record, in order; a mismatched
tuple is dropped without affecting the others, and the parse of a statement
with a mismatched tuple still succeeds with the remaining rows. -/
theorem c8_arity_mismatch_drops_only_row :
    (∀ (cols : List Str) (rows : List (List Value)),
        sqlRowsToRecords cols rows =
          ((rows.filter (fun r => r.length == cols.length)).map (sqlMkRecord cols))) ∧
      parseSQL sqlMixedArity =
        [[("a".toList, Value.num (finInt 1)), ("b".toList, Value.num (finInt 2))],
         [("a".toList, Value.num (finInt 3)), ("b".toList, Value.num (finInt 4))]] :=
  ⟨fun cols rows => by
    simpa using sqlRowsToRecords_filter_map cols rows [], by decide⟩

/-- C4, counterexample: an SQL input with zero matching INSERT statements
does not abort — `parseSQL` returns the empty record list and the transcode
call completes successfully (here with empty CSV output). -/
theorem c4_counterexample :
    parseSQL "SELECT 1;".toList = [] ∧
      convertDataFile trivCodecs ⟨"q.sql".toList, "SELECT 1;".toList⟩ .DATA_TO_CSV =
        .ok ⟨[], "text/csv".toList, "q.csv".toList⟩ :=
  ⟨by decide, by decide⟩

/-- C4, amended: when neither INSERT shape matches anywhere in the input,
`parseSQL` returns the empty record list (no error is raised). -/
theorem c4_zero_matches_empty_result (text : Str)
    (h1 : scanIns1 text = []) (h2 : scanIns2 text = []) :
    parseSQL text = [] := by
  simp [parseSQL, h1, h2]

/-- Witness for the amended C4 at the concrete no-INSERT input. -/
theorem c4_zero_matches_empty_result_witness :
    scanIns1 "SELECT 1;".toList = [] ∧ scanIns2 "SELECT 1;".toList = [] ∧
      parseSQL "SELECT 1;".toList = [] :=
  ⟨by decide, by decide,
    c4_zero_matches_empty_result "SELECT 1;".toList (by decide) (by decide)⟩

/-- C2, counterexample: parsing the serialized two-record list yields a
single Record whose key `a` holds the list of both strings — not a
two-element List of records (the serializer emits no `item` wrapper at
all). -/
theorem c2_counterexample :
    parseXML (toXML sampleListAB "root".toList) = some c2Expected ∧
      c2Expected ≠
        Value.list [.record [("a".toList, .str "1".toList)],
                    .record [("a".toList, .str "2".toList)]] :=
  ⟨by decide, by decide⟩

/-- C2, amended: the serializer concatenates list elements with no `item`
tag (each element is serialized with root name `item`, which only
suppresses the root wrap), so the round trip of `[{a:"1"},{a:"2"}]`
produces the sibling-grouped Record `a ↦ ["1","2"]`, the root
wrapper being unwrapped by parsing the document element. -/
theorem c2_xml_list_roundtrip_grouped :
    toXML sampleListAB "root".toList =
      ("<?xml version=\"1.0\" encoding=\"UTF-8\"?>\n<root><a>1</a><a>2</a></root>").toList ∧
      parseXML (toXML sampleListAB "root".toList) = some c2Expected :=
  ⟨by decide, by decide⟩

/-- C6, counterexample: the tuple tokenizer consumes the quotes of `'123'`
before coercion, so the quoted numeric literal parses to the Number 123,
not the String `123` the claim requires. -/
theorem c6_counterexample :
    parseSQLValuesString quotedNum123 = [[Value.num (finInt 123)]] ∧
      Value.num (finInt 123) ≠ Value.str "123".toList :=
  ⟨by decide, by decide⟩

/-- C6, amended: the tuple tokenizer consumes quote characters, so a quoted
scalar reaches the coercion already unquoted; coercion then maps (after
trimming) literal NULL to Null, a non-empty token that `Number` accepts —
including the unquoted content of a quoted numeric literal such as `'123'`,
which therefore becomes the Number 123 — to that Number, a token still
wrapped in a matching quote pair to the unwrapped String, and anything else
to the raw trimmed String. -/
theorem c6_coercion_after_quote_stripping :
    (∀ c : Str, sq ∉ c →
        parseSQLValuesString ('(' :: sq :: (c ++ [sq, ')'])) = [[cleanSQLVal c]]) ∧
    (∀ v : Str, (trimJs v).map Char.toUpper = "NULL".toList →
        cleanSQLVal v = .vnull) ∧
    (∀ (v : Str) (n : JsNum), (trimJs v).map Char.toUpper ≠ "NULL".toList →
        jsToNumber (trimJs v) = some n → trimJs v ≠ [] → cleanSQLVal v = .num n) ∧
    (∀ v : Str, (trimJs v).map Char.toUpper ≠ "NULL".toList →
        ¬((jsToNumber (trimJs v)).isSome ∧ trimJs v ≠ []) →
        (((trimJs v).headD ' ' = sq ∧ (trimJs v).getLastD ' ' = sq) ∨
         ((trimJs v).headD ' ' = dq ∧ (trimJs v).getLastD ' ' = dq) ∨
         ((trimJs v).headD ' ' = bt ∧ (trimJs v).getLastD ' ' = bt)) →
        cleanSQLVal v = .str (jsSubstring (trimJs v) 1 ((trimJs v).length - 1))) ∧
    (∀ v : Str, (trimJs v).map Char.toUpper ≠ "NULL".toList →
        ¬((jsToNumber (trimJs v)).isSome ∧ trimJs v ≠ []) →
        ¬(((trimJs v).headD ' ' = sq ∧ (trimJs v).getLastD ' ' = sq) ∨
          ((trimJs v).headD ' ' = dq ∧ (trimJs v).getLastD ' ' = dq) ∨
          ((trimJs v).headD ' ' = bt ∧ (trimJs v).getLastD ' ' = bt)) →
        cleanSQLVal v = .str (trimJs v)) ∧
    parseSQLValuesString quotedNum123 = [[Value.num (finInt 123)]] ∧
    cleanSQLVal (sq :: '1' :: '2' :: '3' :: [sq]) = .str "123".toList := by
  refine ⟨?_, ?_, ?_, ?_, ?_, by decide, by decide⟩
  · intro c hc
    show sqlValsGo false ' ' 0 [] [] [] ('(' :: sq :: (c ++ [sq, ')'])) = _
    rw [show sqlValsGo false ' ' 0 [] [] [] ('(' :: sq :: (c ++ [sq, ')'])) =
        sqlValsGo false ' ' 1 [] [] [] (sq :: (c ++ [sq, ')'])) by
      simp [sqlValsGo,
        (by decide : ¬(('(' : Char) = sq ∨ ('(' : Char) = dq ∨ ('(' : Char) = bt))]]
    rw [show sqlValsGo false ' ' 1 [] [] [] (sq :: (c ++ [sq, ')'])) =
        sqlValsGo true sq 1 [] [] [] (c ++ [sq, ')']) by
      cases c <;> simp [sqlValsGo]]
    simpa using sqlValsGo_quoted c hc [] [] []
  · intro v h
    simp [cleanSQLVal, h]
  · intro v n h1 h2 h3
    have h1x : List.map Char.toUpper (trimJs v) ≠ ['N', 'U', 'L', 'L'] := by
      simpa using h1
    simp [cleanSQLVal, h1x, h2, h3]
  · intro v h1 h2 h3
    simp only [cleanSQLVal, if_neg h1, if_neg h2, if_pos h3]
  · intro v h1 h2 h3
    simp only [cleanSQLVal, if_neg h1, if_neg h2, if_neg h3]

/-- Witness for the amended C6: the tokenizer/coercion composition at
concrete tokens — an unquotable word, a blank-padded `nUlL`, the decimal
`12.5`, and a default-branch token `12x` left as the raw trimmed string. -/
theorem c6_coercion_after_quote_stripping_witness :
    parseSQLValuesString ('(' :: sq :: ("ab,c".toList ++ [sq, ')'])) =
        [[cleanSQLVal "ab,c".toList]] ∧
      cleanSQLVal " nUlL ".toList = .vnull ∧
      cleanSQLVal "12.5".toList = .num (.fin ⟨125, -1⟩) ∧
      cleanSQLVal " 12x ".toList = .str "12x".toList :=
  ⟨c6_coercion_after_quote_stripping.1 "ab,c".toList (by decide),
   c6_coercion_after_quote_stripping.2.1 " nUlL ".toList (by decide),
   c6_coercion_after_quote_stripping.2.2.1 "12.5".toList (.fin ⟨125, -1⟩)
     (by decide) (by decide) (by decide),
   c6_coercion_after_quote_stripping.2.2.2.2.1 " 12x ".toList
     (by decide) (by decide) (by decide)⟩

/-- C3, counterexample: with an unsupported target and an unparsable input,
the call fails with the wrapped parse error — parsing happened first, so the
unsupported-conversion rejection did not come before it. -/
theorem c3_counterexample :
    convertDataFile trivCodecs badJsonFile .IMAGE_TO_PNG =
        .error (.parseFailed
          ("Failed to parse input file: Unexpected end of JSON input".toList)) ∧
      convertDataFile trivCodecs badJsonFile .IMAGE_TO_PNG ≠
        .error (.unsupported .IMAGE_TO_PNG) :=
  ⟨by decide, by decide⟩

/-- C3, amended: an unrecognized target format is rejected with the
unsupported-conversion error only after input parsing: when parsing
succeeds the call fails with `unsupported`, and when parsing fails the
wrapped parse error takes precedence. -/
theorem c3_unsupported_after_parse (ext : ExternalCodecs) (f : JsFile)
    (t : ConversionType) (h : isDataConversion t = false) :
    (∀ d, parseInput ext f = .ok d →
        convertDataFile ext f t = .error (.unsupported t)) ∧
    (∀ e, parseInput ext f = .error e →
        convertDataFile ext f t =
          .error (.parseFailed ("Failed to parse input file: ".toList ++ e))) := by
  constructor
  · intro d hd
    unfold convertDataFile
    rw [hd]
    revert h
    cases t <;> simp [serializeData, isDataConversion]
  · intro e he
    unfold convertDataFile
    rw [he]

/-- Witness for the amended C3: a good CSV input with the (non-data)
`JSON_PRETTIFY` token is rejected as unsupported. -/
theorem c3_unsupported_after_parse_witness :
    isDataConversion .JSON_PRETTIFY = false ∧
      convertDataFile trivCodecs goodCsvFile .JSON_PRETTIFY =
        .error (.unsupported .JSON_PRETTIFY) :=
  ⟨by decide,
    (c3_unsupported_after_parse trivCodecs goodCsvFile .JSON_PRETTIFY (by decide)).1
      (.list [.record [("a".toList, .str "1".toList)]]) (by decide)⟩

/-- C1, counterexample: a value whose string form carries leading
whitespace is trimmed on the way back, so the CSV round trip does not
reproduce the original string form. -/
theorem c1_counterexample :
    parseCSV (toCSV (.list [.record [("a".toList, .str " x".toList)]]) ',') ',' =
        [[("a".toList, Value.str "x".toList)]] ∧
      Value.str "x".toList ≠ Value.str " x".toList :=
  ⟨by decide, by decide⟩

/-- C5, counterexample: lines are split before any quote handling, so a
line break inside a quoted field separates rows instead of being literal
content; and a doubled double quote immediately before a delimiter ends the
lazy field match early, so the field truncates to one literal quote and the
rest of the line is dropped instead of the claimed literal content. -/
theorem c5_counterexample :
    (parseCSV ("a\n\"x\ny\"".toList) ',' =
        [[("a".toList, Value.str "x".toList)], [("a".toList, Value.str ('y' :: [dq]))]] ∧
      parseCSV ("a\n\"x\ny\"".toList) ',' ≠ [[("a".toList, Value.str "x\ny".toList)]]) ∧
    (parseCSV ("a\n\"a\"\",b\"".toList) ',' =
        [[("a".toList, Value.str ('a' :: [dq]))]] ∧
      parseCSV ("a\n\"a\"\",b\"".toList) ',' ≠
        [[("a".toList, Value.str ('a' :: dq :: ',' :: ['b']))]]) :=
  ⟨⟨by decide, by decide⟩, ⟨by decide, by decide⟩⟩

/-- C9, counterexample: a record key named `root` re-triggers the root wrap
in the recursive call, so the declaration appears twice and the root tag
three times. -/
theorem c9_counterexample :
    countSub xmlDecl (toXML (.record [("root".toList, .str "x".toList)]) "root".toList) = 2 ∧
      countSub "<root>".toList
        (toXML (.record [("root".toList, .str "x".toList)]) "root".toList) = 3 :=
  ⟨by decide, by decide⟩


/-- C9, amended: for every value in which no record key is literally
`root`, the serialized output carries the XML declaration, the `<root>`
open tag and the `</root>` close tag exactly once each. -/
theorem c9_root_wrap_once (v : Value) (h : noRootKeyV v = true) :
    countSub xmlDecl (toXML v "root".toList) = 1 ∧
      countSub "<root>".toList (toXML v "root".toList) = 1 ∧
      countSub "</root>".toList (toXML v "root".toList) = 1 := by
  rw [toXML_root_wrap v]
  cases v with
  | list xs => exact counts_of_wrapped _ (fragged_items xs (by simpa [noRootKeyV] using h))
  | record fs => exact counts_of_wrapped _ (fragged_fields fs (by simpa [noRootKeyV] using h))
  | vnull => exact counts_of_wrapped _ (fragged_of_plain _ (no_lt_escapeXml _))
  | vbool b => exact counts_of_wrapped _ (fragged_of_plain _ (no_lt_escapeXml _))
  | num n => exact counts_of_wrapped _ (fragged_of_plain _ (no_lt_escapeXml _))
  | str s => exact counts_of_wrapped _ (fragged_of_plain _ (no_lt_escapeXml _))

/-- Witness for the amended C9 at the two-record sample list. -/
theorem c9_root_wrap_once_witness :
    noRootKeyV sampleListAB = true ∧
      countSub xmlDecl (toXML sampleListAB "root".toList) = 1 ∧
      countSub "<root>".toList (toXML sampleListAB "root".toList) = 1 ∧
      countSub "</root>".toList (toXML sampleListAB "root".toList) = 1 :=
  ⟨by decide,
    (c9_root_wrap_once sampleListAB (by decide)).1,
    (c9_root_wrap_once sampleListAB (by decide)).2.1,
    (c9_root_wrap_once sampleListAB (by decide)).2.2⟩


/-- C5, amended: quoting behaves as claimed only on restricted single-field
lines: for contents `u`, `v` of plain characters (not blank, not a double
quote, not the delimiter), the one-column data line `"u""v"` parses to the
single field `u"v` — the doubled quote is one literal quote — and `"u,v"`
parses to the single field `u,v` — the delimiter is literal content. No
more than this holds: a line break inside a quoted field starts a new row,
and a doubled quote immediately before a delimiter ends the field early,
dropping the rest of the line (see the counterexample). -/
theorem c5_quoting_within_line (u v : Str)
    (hu : ∀ c ∈ u, plainChar c = true) (hv : ∀ c ∈ v, plainChar c = true) :
    parseCSV ('a' :: nlc :: dq :: (u ++ (dq :: dq :: (v ++ [dq])))) ',' =
        [[(['a'], Value.str (u ++ dq :: v))]] ∧
      parseCSV ('a' :: nlc :: dq :: (u ++ (',' :: (v ++ [dq])))) ',' =
        [[(['a'], Value.str (u ++ ',' :: v))]] :=
  ⟨c5_part1 u v hu hv, c5_part2 u v hu hv⟩

/-- Witness for the amended C5 at `u = "x"`, `v = "y"`. -/
theorem c5_quoting_within_line_witness :
    (∀ c ∈ ['x'], plainChar c = true) ∧ (∀ c ∈ ['y'], plainChar c = true) ∧
      parseCSV ('a' :: nlc :: dq :: (['x'] ++ (dq :: dq :: (['y'] ++ [dq])))) ',' =
        [[(['a'], Value.str (['x'] ++ dq :: ['y']))]] ∧
      parseCSV ('a' :: nlc :: dq :: (['x'] ++ (',' :: (['y'] ++ [dq])))) ',' =
        [[(['a'], Value.str (['x'] ++ ',' :: ['y']))]] :=
  ⟨by decide, by decide,
    (c5_quoting_within_line ['x'] ['y'] (by decide) (by decide)).1,
    (c5_quoting_within_line ['x'] ['y'] (by decide) (by decide)).2⟩


/-- C1, amended: the CSV round trip reproduces keys and stringified values
for every record list with non-empty distinct plain keys (no blanks, no
quote, no delimiter) and scalar values whose string form is quote-free,
line-break-free and trim-invariant: parsing the serialization yields one
record per row with the same keys in the same order, each value the string
form of the original. (Without the trim-invariance restriction the claim
fails: parsing trims each cell, see the counterexample.) -/
theorem c1_csv_roundtrip_plain (ks : List Str) (rows : List (List Value))
    (hk0 : ks ≠ []) (hnd : ks.Nodup) (hkp : ∀ k ∈ ks, plainKey k = true)
    (hlen : ∀ r ∈ rows, r.length = ks.length)
    (hvals : ∀ r ∈ rows, ∀ x ∈ r, isScalar x = true ∧ plainCellStr (csvStringForm x) = true) :
    parseCSV (toCSV (Value.list (rows.map (fun r => Value.record (ks.zip r)))) ',') ','
      = rows.map (fun r => ks.zip (r.map (fun x => Value.str (csvStringForm x)))) := by
  cases rows with
  | nil =>
    rw [show List.map (fun r => Value.record (ks.zip r)) ([] : List (List Value)) = [] from rfl]
    rw [show toCSV (Value.list []) ',' = [] from by decide]
    rw [show parseCSV [] ',' = [] from by decide]
    rfl
  | cons r0 rows2 =>
    exact c1_main ks r0 rows2 hnd hkp hk0 hlen (fun r hr x hx => (hvals r hr x hx).2)

/-- Witness for the amended C1 at keys `a`, `b` and one row `["x", null]`. -/
theorem c1_csv_roundtrip_plain_witness :
    (([['a'], ['b']] : List Str) ≠ [] ∧ ([['a'], ['b']] : List Str).Nodup ∧
      (∀ k ∈ ([['a'], ['b']] : List Str), plainKey k = true) ∧
      (∀ r ∈ [[Value.str ['x'], Value.vnull]], r.length = ([['a'], ['b']] : List Str).length) ∧
      (∀ r ∈ [[Value.str ['x'], Value.vnull]], ∀ x ∈ r,
        isScalar x = true ∧ plainCellStr (csvStringForm x) = true)) ∧
    parseCSV (toCSV (Value.list ([[Value.str ['x'], Value.vnull]].map
        (fun r => Value.record (([['a'], ['b']] : List Str).zip r)))) ',') ','
      = [[Value.str ['x'], Value.vnull]].map
          (fun r => ([['a'], ['b']] : List Str).zip
            (r.map (fun x => Value.str (csvStringForm x)))) :=
  ⟨⟨by decide, by decide, by decide, by decide, by decide⟩,
    c1_csv_roundtrip_plain [['a'], ['b']] [[Value.str ['x'], Value.vnull]]
      (by decide) (by decide) (by decide) (by decide) (by decide)⟩

end CC
